import Mathlib

/-!
# Ytl: the overlay connection wrapper (`ytl/yggconn.go`) and the TCP dialer

A shallow embedding of the handshake layer of Ytl: the meta-preamble parser
(`internalParceMetaPackage`, `parceMetaPackage`), the connection wrapper `YggConn`
(`middleware`, `setErr`, `Close`, `Read`, `Write`, `GetVer`, `GetPublicKey`) and the
listener wrapper `YggListener`; of the deduplication manager as the specification
describes it; and of `TcpDialer.DialContext` (`dialers/tcp_dialer.go`).

Conventions of the embedding
* a Go `[]byte` that may be `nil` is an `Option (List Byte)`, a Go pointer that may be
  `nil` is an `Option`;
* a Go channel of capacity one is an `Option` slot: `none` is the empty channel (a receive
  blocks), `some v` is the channel holding `v` (a send blocks);
* an operation that can block for ever returns `none`;
* the goroutine started by `ConnToYggConn` is run to completion before the wrapper is used:
  every operation that observes the handshake blocks on a channel until it is over;
* time is counted in nanoseconds, as in `time.Duration`.
-/

namespace Ytl

/-! ## Bytes, versions, errors -/

/-- One octet. -/
abbrev Byte := Fin 256

/-- The type `static.ProtoVersion`: two single bytes. -/
structure ProtoVersion where
  Major : Byte
  Minor : Byte
deriving DecidableEq, Repr

/-- Modelled from the spec: the constant `static.META_HEADER()`, whose package is not part of the
sources at hand. The spec gives the four ASCII bytes `m e t a`; the mock transport of the
repository writes the same four bytes `109, 101, 116, 97`. -/
def META_HEADER : List Byte := [109, 101, 116, 97]

/-- Modelled from the spec: the constant `static.PROTO_VERSION()`, whose package is not part of
the sources at hand. The one supported version is `(0, 4)`; the mock transport writes `0, 4`. -/
def PROTO_VERSION : ProtoVersion := ⟨0, 4⟩

/-- The constant `ed25519.PublicKeySize`. -/
def PublicKeySize : Nat := 32

/-- The duration `time.Second`, in nanoseconds. -/
def Second : Nat := 1000000000

/-- The duration `time.Minute`, in nanoseconds. -/
def Minute : Nat := 60 * Second

/-- The error values that travel through the wrapper: the errors of the standard library that
a stream can return, and the error types of package `static` that `yggconn.go` constructs. -/
inductive Err where
  | EOF
  | ErrUnexpectedEOF
  | ErrClosedPipe
  | other (code : Nat)
  | UnknownProtoError
  | UnknownProtoVersionError (Expected Received : ProtoVersion)
  | ConnTimeoutError
  | TransportSecurityCheckError (Expected Received : Option (List Byte))
  | IvalidPeerPublicKey (Text : String)
  | ConnClosedByDeduplicatorError
deriving DecidableEq, Repr

/-! ## The raw stream (`net.Conn`) -/

/-- One write of the peer that has not been consumed yet: the bytes, and the time at which
they reach this side. -/
structure Chunk where
  arrival : Nat
  data : List Byte
deriving DecidableEq, Repr

/-- The state of a raw stream, as `net.Pipe` and a TCP socket present it to the reader:
the pending writes of the peer, in order; what a read finds once they are used up
(`none`: the peer stays silent and the read blocks; `some (t, e)`: the read fails with `e`
at time `t`); the local clock (the time at which the last operation returned); whether the
stream was closed locally; the values `Close` and `Write` answer with; the bytes written. -/
structure Conn where
  incoming : List Chunk
  atEnd : Option (Nat × Err)
  now : Nat
  closed : Bool
  closeErr : Option Err
  writeErr : Option Err
  written : List Byte
deriving DecidableEq, Repr

/-- All the bytes the peer has sent and the reader has not consumed, in order. -/
def Conn.content (c : Conn) : List Byte :=
  (c.incoming.map Chunk.data).flatten

/-- The method `net.Conn.Read` on a destination of `n` bytes: the bytes copied, the error,
the new state. A closed stream fails at once; otherwise the read waits for the next write of
the peer and copies as much of it as fits, leaving the rest of that write pending. -/
def Conn.Read (c : Conn) (n : Nat) : Option (List Byte × Option Err × Conn) :=
  if c.closed then some ([], some Err.ErrClosedPipe, c)
  else
    match c.incoming with
    | [] =>
      match c.atEnd with
      | none => none
      | some (t, e) => some ([], some e, { c with now := max c.now t })
    | ch :: rest =>
      if ch.data.length ≤ n then
        some (ch.data, none, { c with incoming := rest, now := max c.now ch.arrival })
      else
        some (ch.data.take n, none,
          { c with incoming := { ch with data := ch.data.drop n } :: rest,
                   now := max c.now ch.arrival })

/-- The method `net.Conn.Close`. -/
def Conn.Close (c : Conn) : Option Err × Conn :=
  (c.closeErr, { c with closed := true })

/-- The method `net.Conn.Write`: the number of bytes written, the error, the new state. -/
def Conn.Write (c : Conn) (b : List Byte) : Nat × Option Err × Conn :=
  if c.closed then (0, some Err.ErrClosedPipe, c)
  else
    match c.writeErr with
    | some e => (0, some e, c)
    | none => (b.length, none, { c with written := c.written ++ b })

/-- The end of `io.ReadAtLeast`: `if n >= min { err = nil } else if n > 0 && err == EOF
{ err = ErrUnexpectedEOF }`, with `acc` the `n` bytes read and `min = size`. -/
def readFullEnd (size : Nat) (acc : List Byte) (err : Option Err) : Option Err :=
  if size ≤ acc.length then none
  else if 0 < acc.length ∧ err = some Err.EOF then some Err.ErrUnexpectedEOF
  else err

/-- The loop of `io.ReadAtLeast` as `io.ReadFull` runs it (destination of `size` bytes,
`min = size`): `for n < min && err == nil { nn, err = r.Read(buf[n:]); n += nn }` and then
the adjustment of the error. `acc` holds the `n` bytes read so far. The loop of the library
has no bound; here it stops with `none` after `fuel` reads that were not enough. -/
def ReadFullLoop {σ : Type} (read : σ → Nat → Option (List Byte × Option Err × σ)) :
    Nat → σ → Nat → List Byte → Option Err → Option (List Byte × Option Err × σ)
  | 0, s, size, acc, err =>
    if acc.length < size ∧ err = none then none
    else some (acc, readFullEnd size acc err, s)
  | fuel + 1, s, size, acc, err =>
    if acc.length < size ∧ err = none then
      match read s (size - acc.length) with
      | none => none
      | some (d, e, s1) => ReadFullLoop read fuel s1 size (acc ++ d) e
    else some (acc, readFullEnd size acc err, s)

/-- The function `io.ReadFull(r, buf)` with `len(buf) = size`. -/
def ReadFull {σ : Type} (read : σ → Nat → Option (List Byte × Option Err × σ))
    (fuel : Nat) (s : σ) (size : Nat) : Option (List Byte × Option Err × σ) :=
  ReadFullLoop read fuel s size [] none

/-- The call `io.ReadFull(conn, buf)` on a raw stream. Every read that does not end the loop
uses up one pending write, so one read more than there are pending writes is always enough. -/
def Conn.ReadFull (c : Conn) (size : Nat) : Option (List Byte × Option Err × Conn) :=
  Ytl.ReadFull Conn.Read (c.incoming.length + 1) c size

/-! ## The meta-preamble parser -/

/-- The four results of the parser, and the raw stream after it ran. -/
structure ParseResult where
  err : Option Err
  version : Option ProtoVersion
  pkey : Option (List Byte)
  buf : Option (List Byte)
  conn : Conn
deriving DecidableEq, Repr

/-- The function `internalParceMetaPackage`. The destination `buf` is allocated with
`len(META_HEADER)+2+PublicKeySize` zero bytes and `io.ReadFull` fills it from the front, so
after a short read it holds the bytes read followed by zeros. `none`: the read blocks for
ever. -/
def internalParceMetaPackage (conn : Conn) : Option ParseResult :=
  let size := META_HEADER.length + 2 + PublicKeySize
  match conn.ReadFull size with
  | none => none
  | some (d, err, conn1) =>
    let buf : List Byte := d ++ List.replicate (size - d.length) 0
    if err ≠ none then
      some ⟨err, none, none, some buf, conn1⟩
    else if META_HEADER ≠ buf.take META_HEADER.length then
      some ⟨some Err.UnknownProtoError, none, none, some buf, conn1⟩
    else
      let version : ProtoVersion :=
        ⟨buf.getD META_HEADER.length 0, buf.getD (META_HEADER.length + 1) 0⟩
      let target_version := PROTO_VERSION
      if version.Major ≠ target_version.Major ∨ version.Minor ≠ target_version.Minor then
        some ⟨some (Err.UnknownProtoVersionError PROTO_VERSION version), some version, none,
          some buf, conn1⟩
      else
        let key_raw := buf.drop (buf.length - PublicKeySize)
        some ⟨none, some version, some key_raw, some buf, conn1⟩

/-- The function `parceMetaPackage`: the parser runs in a goroutine and `select` takes its
result if it is there before `time.After(timeout)` fires; otherwise the stream is closed and
the result is `ConnTimeoutError` with nothing else. -/
def parceMetaPackage (conn : Conn) (timeout : Nat) : ParseResult :=
  let late : ParseResult :=
    ⟨some Err.ConnTimeoutError, none, none, none,
      { (conn.Close).2 with now := conn.now + timeout }⟩
  match internalParceMetaPackage conn with
  | none => late
  | some r => if r.conn.now < conn.now + timeout then r else late

/-! ## The deduplication manager -/

/-- Modelled from the spec: the entry the registry of `DeduplicationManager` keeps for a peer
key (the file that defines the manager is not part of the sources at hand). It records the
secure level of the incumbent session and its eviction callback. The callback is a closure
over the session, so the model keeps the identifier of that session. -/
structure DedupEntry where
  key : List Byte
  secure_level : Nat
  session : Nat
deriving DecidableEq, Repr

/-- Modelled from the spec: the state of a `DeduplicationManager`, a mapping from peer key
to entry (kept as a list with at most one entry per key) and the `strict_mode` flag of the
constructor. -/
structure DeduplicationManager where
  strict_mode : Bool
  entries : List DedupEntry
deriving DecidableEq, Repr

/-- Modelled from the spec: the `CancelHandle` returned by `Check`, "whose invocation removes
this entry if still present". -/
structure CancelHandle where
  key : List Byte
  session : Nat
deriving DecidableEq, Repr

/-- What an operation did to parties outside the wrapper it ran on: it invoked the eviction
callback registered by a session, or it invoked a cancel handle. -/
inductive Event where
  | evicted (session : Nat)
  | cancelled (h : CancelHandle)
deriving DecidableEq, Repr

/-- Modelled from the spec: the lookup of a peer key in the registry. -/
def DeduplicationManager.lookup (m : DeduplicationManager) (key : List Byte) :
    Option DedupEntry :=
  m.entries.find? (fun e => decide (e.key = key))

/-- Modelled from the spec: invoking a cancel handle removes the entry it was returned for,
if that entry is still the one registered. -/
def CancelHandle.invoke (h : CancelHandle) (m : DeduplicationManager) : DeduplicationManager :=
  { m with entries :=
      m.entries.filter (fun e => !(decide (e.key = h.key) && decide (e.session = h.session))) }

/-- Modelled from the spec: the registry after the newcomer took the slot of `key`. -/
def DeduplicationManager.install (m : DeduplicationManager) (key : List Byte)
    (secure_level session : Nat) : DeduplicationManager :=
  { m with entries :=
      ⟨key, secure_level, session⟩ :: m.entries.filter (fun e => !decide (e.key = key)) }

/-- Modelled from the spec: the operation `check(peer_key, secure_level, on_evict)` of section
4.E, whose file is not part of the sources at hand. No incumbent: the newcomer is entered and
gets a handle. Incumbent with a lower secure level: its callback is invoked, the newcomer
replaces it and gets a handle. Incumbent with a higher secure level: `nil`. Incumbent with
the same secure level: `nil` as well. For that last case in strict mode the spec names a
comparison of per-session nonces, but `Check` is given the key, the secure level and the
callback only, in `middleware` and in the tests alike, and the tests `TestCollisionII` and
`TestCollisionSS` of the repository require that the second of two calls at equal levels
gets `nil` and that no callback is invoked; the model follows them. The result is the handle
(or `nil`), the new registry, and the callbacks invoked. -/
def DeduplicationManager.Check (m : DeduplicationManager) (key : List Byte)
    (secure_level session : Nat) : Option CancelHandle × DeduplicationManager × List Event :=
  match m.lookup key with
  | none => (some ⟨key, session⟩, m.install key secure_level session, [])
  | some inc =>
    if inc.secure_level < secure_level then
      (some ⟨key, session⟩, m.install key secure_level session, [Event.evicted inc.session])
    else if secure_level < inc.secure_level then
      (none, m, [])
    else
      (none, m, [])

/-! ## The allow-list -/

/-- The type `static.AllowList`: a slice of public keys. -/
abbrev AllowList := List (List Byte)

/-- Modelled from the spec: the method `AllowList.IsAllow` of package `static`, which is not
part of the sources at hand: membership of the key in the list, by byte equality. -/
def AllowList.IsAllow (l : AllowList) (key : List Byte) : Bool :=
  l.any (fun k => decide (k = key))

/-! ## The wrapper `YggConn` -/

/-- A value of the field `closefn`: the empty function `func(){}`, or the cancel handle that
`Check` returned. -/
inductive CloseFn where
  | noop
  | cancel (h : CancelHandle)
deriving DecidableEq, Repr

/-- The struct `YggConn`. The field `dm` says whether the pointer to the deduplication manager
is non-nil; the state of that manager is shared between wrappers and is passed to the
operations. `session` is not a field of the Go struct: it identifies this wrapper in the
closure `func(){ y.setErr(...) }` handed to `Check`. -/
structure YggConn where
  innerConn : Conn
  transport_key : Option (List Byte)
  allowList : Option AllowList
  secureTranport : Bool
  extraReadBuffChn : Option (Option (List Byte))
  err : Option Err
  dm : Bool
  closefn : Option CloseFn
  pVersion : Option (Option ProtoVersion)
  otherPublicKey : Option (Option (List Byte))
  isClosed : Option Bool
  session : Nat
deriving DecidableEq, Repr

/-- A send on a channel of capacity one: it fills the empty slot and blocks on a full one. -/
def chanSend {α : Type} (slot : Option α) (v : α) : Option (Option α) :=
  match slot with
  | none => some (some v)
  | some _ => none

/-- The struct literal `ret` of `ConnToYggConn`, before the goroutine runs. -/
def newYggConn (conn : Conn) (transport_key : Option (List Byte)) (allow : Option AllowList)
    (secureTranport : Bool) (dm : Bool) (session : Nat) : YggConn :=
  { innerConn := conn
    transport_key := transport_key
    allowList := allow
    secureTranport := secureTranport
    extraReadBuffChn := none
    err := none
    dm := dm
    closefn := some CloseFn.noop
    pVersion := none
    otherPublicKey := none
    isClosed := some false
    session := session }

/-- The method `YggConn.Close`. The value received from `isClosed` is overwritten by
`closed = true` before the test `y.closefn != nil && !closed` reads it. The deferred send
puts `closed` back. The result is the error, the wrapper, the registry and the handles
invoked. -/
def YggConn.Close (y : YggConn) (m : DeduplicationManager) :
    Option (Option Err × YggConn × DeduplicationManager × List Event) :=
  match y.isClosed with
  | none => none
  | some closed0 =>
    let closed := closed0
    let closed := true
    let r : YggConn × DeduplicationManager × List Event :=
      if y.closefn.isSome && !closed then
        match y.closefn with
        | some (CloseFn.cancel h) =>
          ({ y with closefn := some CloseFn.noop }, h.invoke m, [Event.cancelled h])
        | _ => ({ y with closefn := some CloseFn.noop }, m, [])
      else (y, m, [])
    let c := r.1.innerConn.Close
    let err := if r.1.err ≠ none then r.1.err else c.1
    some (err, { r.1 with innerConn := c.2, isClosed := some closed }, r.2.1, r.2.2)

/-- The method `YggConn.setErr`: the first error is kept, then the wrapper is closed. -/
def YggConn.setErr (y : YggConn) (e : Err) (m : DeduplicationManager) :
    Option (YggConn × DeduplicationManager × List Event) :=
  let y1 := if y.err = none then { y with err := some e } else y
  match y1.Close m with
  | none => none
  | some (_, y2, m2, ev) => some (y2, m2, ev)

/-- The closure `onerror` of `middleware`: `y.setErr(e)` and then `nil` is sent to the
channel of buffered bytes. -/
def YggConn.onerror (y : YggConn) (e : Err) (m : DeduplicationManager) :
    Option (YggConn × DeduplicationManager × List Event) :=
  match y.setErr e m with
  | none => none
  | some (y1, m1, ev) =>
    match chanSend y1.extraReadBuffChn none with
    | none => none
    | some chn => some ({ y1 with extraReadBuffChn := chn }, m1, ev)

/-- The comparison `bytes.Compare(a, b) != 0`; a nil slice compares as the empty one. -/
def bytesDiffer (a b : Option (List Byte)) : Bool :=
  decide (a.getD [] ≠ b.getD [])

/-- The method `YggConn.middleware`, the background handshake: parse the preamble with a
deadline of `time.Minute`, publish version and key, then the transport-key check, the
allow-list check and the deduplication check, in this order; the first failure goes through
`onerror`; on success the bytes of the parser are sent to the channel of buffered bytes. -/
def YggConn.middleware (y : YggConn) (m : DeduplicationManager) :
    Option (YggConn × DeduplicationManager × List Event) :=
  let r := parceMetaPackage y.innerConn Minute
  let y := { y with innerConn := r.conn }
  match chanSend y.pVersion r.version with
  | none => none
  | some pv =>
    let y := { y with pVersion := pv }
    match chanSend y.otherPublicKey r.pkey with
    | none => none
    | some pk =>
      let y := { y with otherPublicKey := pk }
      let buf : Option (List Byte) := if (r.buf.getD []).length = 0 then none else r.buf
      match r.err with
      | some e => y.onerror e m
      | none =>
        if y.transport_key.isSome && bytesDiffer y.transport_key r.pkey then
          y.onerror (Err.TransportSecurityCheckError y.transport_key r.pkey) m
        else if y.allowList.isSome && !(AllowList.IsAllow (y.allowList.getD []) (r.pkey.getD []))
        then
          y.onerror
            (Err.IvalidPeerPublicKey "Key received from the peer is not in the allow list") m
        else if y.dm then
          match m.Check (r.pkey.getD []) y.secureTranport.toNat y.session with
          | (none, m1, ev) =>
            match y.onerror Err.ConnClosedByDeduplicatorError m1 with
            | none => none
            | some (y1, m2, ev1) => some (y1, m2, ev ++ ev1)
          | (some closefunc, m1, ev) =>
            let y := { y with closefn := some (CloseFn.cancel closefunc) }
            match chanSend y.extraReadBuffChn buf with
            | none => none
            | some chn => some ({ y with extraReadBuffChn := chn }, m1, ev)
        else
          match chanSend y.extraReadBuffChn buf with
          | none => none
          | some chn => some ({ y with extraReadBuffChn := chn }, m, [])

/-- The function `ConnToYggConn`, with the goroutine `ret.middleware()` run to its end.
`dm` is the manager the pointer refers to (`none`: a nil pointer). The result is the
pointer returned (`none`: nil, for a nil stream), the manager and the callbacks invoked. -/
def ConnToYggConn (conn : Option Conn) (transport_key : Option (List Byte))
    (allow : Option AllowList) (secureTranport : Bool) (dm : Option DeduplicationManager)
    (session : Nat) : Option (Option YggConn × Option DeduplicationManager × List Event) :=
  match conn with
  | none => some (none, dm, [])
  | some c =>
    let ret := newYggConn c transport_key allow secureTranport dm.isSome session
    match ret.middleware (dm.getD ⟨false, []⟩) with
    | none => none
    | some (y, m, ev) => some (some y, dm.map (fun _ => m), ev)

/-- The method `YggConn.Read` on a destination of `n` bytes: buffered bytes first, without
touching the stream; once the buffer is nil, the stream, with the stored error in place of
the error of the stream. The deferred send puts the buffer back. -/
def YggConn.Read (y : YggConn) (n : Nat) : Option (List Byte × Option Err × YggConn) :=
  match y.extraReadBuffChn with
  | none => none
  | some (some buf) =>
    let k := min n buf.length
    let buf1 : Option (List Byte) := if buf.length ≤ k then none else some (buf.drop k)
    some (buf.take k, none, { y with extraReadBuffChn := some buf1 })
  | some none =>
    match y.innerConn.Read n with
    | none => none
    | some (d, err, c) =>
      some (d, if y.err ≠ none then y.err else err,
        { y with innerConn := c, extraReadBuffChn := some none })

/-- The method `YggConn.Write`. -/
def YggConn.Write (y : YggConn) (b : List Byte) : Nat × Option Err × YggConn :=
  let r := y.innerConn.Write b
  (r.1, if y.err ≠ none then y.err else r.2.1, { y with innerConn := r.2.2 })

/-! ## The listener wrapper -/

/-- A `net.Listener`: the outcomes of its coming `Accept` calls, a raw stream or an error. -/
structure Listener where
  pending : List (Except Err Conn)

/-- The struct `YggListener`; `dm` says whether the pointer to the manager is non-nil. -/
structure YggListener where
  inner_listener : Listener
  secure : Bool
  dm : Bool

/-- The struct copy `*yggr` that `Accept` makes right after `ConnToYggConn` started the
goroutine, as it is once the handshake is over. The channels and the stream are references,
so the copy sees what the handshake did to them; the fields `err` and `closefn` are values
of the copy, taken before the goroutine stored anything: `err` stays nil and `closefn` stays
`func(){}` whatever `setErr` and `middleware` write into the struct they work on. -/
def YggConn.valueCopy (y : YggConn) : YggConn :=
  { y with err := none, closefn := some CloseFn.noop }

/-- The method `YggListener.Accept`: the stream of the inner listener is wrapped by
`ConnToYggConn(conn, nil, nil, y.secure, y.dm)` and the value `*yggr` is returned, a copy of
the struct the goroutine works on. `none`: no connection ever comes in. -/
def YggListener.Accept (y : YggListener) (m : DeduplicationManager) (session : Nat) :
    Option ((Option YggConn × Option Err) × YggListener × DeduplicationManager × List Event) :=
  match y.inner_listener.pending with
  | [] => none
  | Except.error e :: rest =>
    some ((none, some e), { y with inner_listener := ⟨rest⟩ }, m, [])
  | Except.ok conn :: rest =>
    match ConnToYggConn (some conn) none none y.secure (if y.dm then some m else none)
        session with
    | none => none
    | some (yggr, m1, ev) =>
      some ((yggr.map YggConn.valueCopy, none), { y with inner_listener := ⟨rest⟩ },
        m1.getD m, ev)

/-! ## Sample streams -/

/-- An open raw stream with the given pending writes, a silent peer after them, and no
failure of `Close` or `Write`. -/
def Conn.ofChunks (chunks : List Chunk) : Conn :=
  ⟨chunks, none, 0, false, none, none, []⟩

/-- The six bytes `header` that `MockTransport.Connect` writes first. -/
def mockHeader : List Byte := [109, 101, 116, 97, 0, 4]

/-- The key `MockTransport.Connect` writes when the URI names none: 32 zero bytes. -/
def mockKey : List Byte := List.replicate 32 0

/-- A payload after the preamble (the mock transport writes a line of text there). -/
def mockInfo : List Byte := [123, 39, 116, 114, 39, 125]

/-- The stream `MockTransport.Connect` hands out: three writes of the peer, the header, the
key and the payload. -/
def mockConn : Conn :=
  Conn.ofChunks [⟨0, mockHeader⟩, ⟨0, mockKey⟩, ⟨0, mockInfo⟩]

/-- A stream of a peer that speaks another protocol: the header is `a t a m`, as in
`TestParceMetaPackageWrongProto`. -/
def wrongProtoConn : Conn :=
  Conn.ofChunks [⟨0, [97, 116, 97, 109, 0, 4]⟩, ⟨0, mockKey⟩]

/-- A stream of a peer that announces version `(1, 5)`. -/
def wrongVerConn : Conn :=
  Conn.ofChunks [⟨0, [109, 101, 116, 97, 1, 5]⟩, ⟨0, mockKey⟩, ⟨0, mockInfo⟩]

/-! ## Auxiliary notions for the statements -/

/-- The wrapper after `onerror(e)` ran on it while no error was stored: the error is stored,
the stream is closed, the close flag is set and `nil` sits in the channel of buffered
bytes. -/
def YggConn.failed (y : YggConn) (e : Err) : YggConn :=
  { y with innerConn := (y.innerConn.Close).2
           err := some e
           isClosed := some true
           extraReadBuffChn := some none }

/-- The wrapper that `ConnToYggConn` returns for the stream `c`, as it is once the handshake
is over. -/
def wrapped (c : Conn) (transport_key : Option (List Byte)) (allow : Option AllowList)
    (secureTranport : Bool) (dm : Option DeduplicationManager) (session : Nat) :
    Option YggConn :=
  (ConnToYggConn (some c) transport_key allow secureTranport dm session).bind (fun r => r.1)

/-- The error stored in the wrapper that `ConnToYggConn` builds over the stream `c`, once
the handshake is over: `some none` is a handshake without error. -/
def handshakeErr (c : Conn) (transport_key : Option (List Byte)) (allow : Option AllowList)
    (secureTranport : Bool) (dm : Option DeduplicationManager) (session : Nat) :
    Option (Option Err) :=
  (wrapped c transport_key allow secureTranport dm session).map (fun y => y.err)

/-- The wrapper as the handshake over the stream `c` has it after the parser ran and version
and key were published, before the checks. -/
def published (c : Conn) (transport_key : Option (List Byte)) (allow : Option AllowList)
    (secureTranport : Bool) (dm : Bool) (session : Nat) : YggConn :=
  { newYggConn (parceMetaPackage c Minute).conn transport_key allow secureTranport dm session
      with pVersion := some (parceMetaPackage c Minute).version
           otherPublicKey := some (parceMetaPackage c Minute).pkey }

/-- A call of one of the three stream operations of the wrapper. -/
inductive Op where
  | read (n : Nat)
  | write (b : List Byte)
  | close
deriving DecidableEq, Repr

/-- One call on the wrapper: the error it returns, the wrapper and the registry after it.
`none`: the call blocks. -/
def YggConn.step (y : YggConn) (m : DeduplicationManager) :
    Op → Option (Option Err × YggConn × DeduplicationManager)
  | Op.read n => (y.Read n).map (fun r => (r.2.1, r.2.2, m))
  | Op.write b => some ((y.Write b).2.1, (y.Write b).2.2, m)
  | Op.close => (y.Close m).map (fun r => (r.1, r.2.1, r.2.2.1))

/-- A sequence of calls on the wrapper, one after the other: the errors they return and the
wrapper after the last of them. `none`: one of the calls blocks. -/
def YggConn.run (y : YggConn) (m : DeduplicationManager) :
    List Op → Option (List (Option Err) × YggConn)
  | [] => some ([], y)
  | op :: ops =>
    match y.step m op with
    | none => none
    | some (e, y1, m1) => (YggConn.run y1 m1 ops).map (fun r => (e :: r.1, r.2))

/-- Whether an error is a `TransportSecurityCheckError`. -/
def Err.isTransportSecurityCheck : Err → Bool
  | Err.TransportSecurityCheckError _ _ => true
  | _ => false

/-- Whether an error is an `IvalidPeerPublicKey`, the rejection by the allow-list. -/
def Err.isIvalidPeerPublicKey : Err → Bool
  | Err.IvalidPeerPublicKey _ => true
  | _ => false

/-- The closure `func(){ y.setErr(static.ConnClosedByDeduplicatorError{}) }` that
`middleware` hands to `Check` as the eviction callback of the wrapper. -/
def YggConn.on_evict (y : YggConn) (m : DeduplicationManager) :
    Option (YggConn × DeduplicationManager × List Event) :=
  y.setErr Err.ConnClosedByDeduplicatorError m

/-- The method `YggConn.GetVer`: the version is received from its channel and the deferred
send puts it back; a nil version comes with the stored error. `none`: the channel is empty
and the call blocks. -/
def YggConn.GetVer (y : YggConn) : Option ((Option ProtoVersion × Option Err) × YggConn) :=
  match y.pVersion with
  | none => none
  | some v =>
    let res : Option ProtoVersion × Option Err := if v = none then (none, y.err) else (v, none)
    some (res, { y with pVersion := some v })

/-- The method `YggConn.GetPublicKey`: as `GetVer`, on the channel of the peer key. -/
def YggConn.GetPublicKey (y : YggConn) :
    Option ((Option (List Byte) × Option Err) × YggConn) :=
  match y.otherPublicKey with
  | none => none
  | some k =>
    let res : Option (List Byte) × Option Err := if k = none then (none, y.err) else (k, none)
    some (res, { y with otherPublicKey := some k })

/-- The results of `n` successive calls of `GetVer`, and the wrapper after them. -/
def YggConn.GetVers (y : YggConn) :
    Nat → Option (List (Option ProtoVersion × Option Err) × YggConn)
  | 0 => some ([], y)
  | n + 1 =>
    match y.GetVer with
    | none => none
    | some (r, y1) => (YggConn.GetVers y1 n).map (fun rs => (r :: rs.1, rs.2))

/-- The results of `n` successive calls of `GetPublicKey`, and the wrapper after them. -/
def YggConn.GetPublicKeys (y : YggConn) :
    Nat → Option (List (Option (List Byte) × Option Err) × YggConn)
  | 0 => some ([], y)
  | n + 1 =>
    match y.GetPublicKey with
    | none => none
    | some (r, y1) => (YggConn.GetPublicKeys y1 n).map (fun rs => (r :: rs.1, rs.2))

/-- The results of successive `Read` calls with destinations of the given sizes, and the
wrapper after them. `none`: one of the calls blocks. -/
def YggConn.Reads (y : YggConn) :
    List Nat → Option (List (List Byte × Option Err) × YggConn)
  | [] => some ([], y)
  | s :: ss =>
    match y.Read s with
    | none => none
    | some (d, e, y1) => (YggConn.Reads y1 ss).map (fun rs => ((d, e) :: rs.1, rs.2))

/-- The pieces a reader expects when it takes a buffer in portions of the given sizes: each
piece is as long as its size allows and the rest of the buffer has. -/
def sliceBy (buf : List Byte) : List Nat → List (List Byte)
  | [] => []
  | s :: ss => buf.take s :: sliceBy (buf.drop s) ss

/-- The lengths of the pieces of a buffer of `len` bytes taken in portions of the given
sizes: each is the smaller of its size and what is left. -/
def sliceLengths (len : Nat) : List Nat → List Nat
  | [] => []
  | s :: ss => min s len :: sliceLengths (len - s) ss

/-- A wrapper of the mock stream that holds the six bytes of the header as buffered
bytes. -/
def bufferedConn : YggConn :=
  { newYggConn mockConn none none false false 0 with extraReadBuffChn := some (some mockHeader) }

/-- The bytes of the stream that the reader can have before time `t`: those of the pending
writes that arrive before `t`, up to the first one that does not. -/
def Conn.deliveredBefore (c : Conn) (t : Nat) : List Byte :=
  ((c.incoming.takeWhile (fun ch => decide (ch.arrival < t))).map Chunk.data).flatten

/-- A stream of a slow peer: the valid preamble of the mock transport arrives after 45
seconds, the payload with it. -/
def lateConn : Conn :=
  Conn.ofChunks [⟨45 * Second, mockHeader ++ mockKey⟩, ⟨45 * Second, mockInfo⟩]

/-- A stream of a peer that is too slow: its valid preamble arrives after 61 seconds. -/
def tooLateConn : Conn :=
  Conn.ofChunks [⟨61 * Second, mockHeader ++ mockKey⟩, ⟨61 * Second, mockInfo⟩]

/-- A listener without manager on which one connection comes in whose peer announces
version `(1, 5)`. -/
def wrongVerListener : YggListener :=
  ⟨⟨[Except.ok wrongVerConn]⟩, false, false⟩

/-- The wrapper `ConnToYggConn` builds over the stream of the mock transport with a strict
manager that holds no entry, once the handshake is over: the manager let it in. -/
def admittedConn : YggConn :=
  (wrapped mockConn none none false (some ⟨true, []⟩) 1).getD
    (newYggConn mockConn none none false true 1)

/-- A sequence of `Check` calls on one manager, as the loop of `TestNoCollision` makes them,
each with its key, its secure level and its session: the handles returned, the registry
after the calls and the callbacks invoked. -/
def DeduplicationManager.Checks (m : DeduplicationManager) :
    List (List Byte × Nat × Nat) →
      List (Option CancelHandle) × DeduplicationManager × List Event
  | [] => ([], m, [])
  | q :: qs =>
    let r := m.Check q.1 q.2.1 q.2.2
    let rs := DeduplicationManager.Checks r.2.1 qs
    (r.1 :: rs.1, rs.2.1, r.2.2 ++ rs.2.2)

/-! ## The TCP dialer (`dialers/tcp_dialer.go`) -/

/-- The part of `url.Userinfo` the dialer reads: the user name and the password, if set. -/
structure Userinfo where
  username : String
  password : Option String
deriving DecidableEq, Repr

/-- The part of `url.URL` the dialer reads. -/
structure URL where
  Scheme : String
  Host : String
  User : Option Userinfo
deriving DecidableEq, Repr

/-- An address `net.IP`. -/
abbrev IP := List Byte

/-- The type `net.TCPAddr`. -/
structure TCPAddr where
  IP : IP
  Port : Nat
deriving DecidableEq, Repr

/-- A connection a dial returns, with the addresses of its two ends. -/
structure SockConn where
  laddr : IP
  raddr : IP
deriving DecidableEq, Repr

/-- The type `proxy.Auth`. -/
structure Auth where
  User : String
  Password : String
deriving DecidableEq, Repr

/-- The struct `TcpDialer` (the socket-control hook is not modelled). -/
structure TcpDialer where
  Timeout : Nat
  KeepAlive : Nat
deriving DecidableEq, Repr

/-- A call the dialer makes to the network, to the resolver or to package `addr`. -/
inductive NetCall where
  | resolve (host : String)
  | checkAddr (ip : IP)
  | socks5 (addr : TCPAddr) (auth : Auth)
  | proxyDial (timeout : Nat) (host : String)
  | directDial (timeout keepalive : Nat) (addr : TCPAddr)
  | close
deriving DecidableEq, Repr

/-- What the world answers to the calls of the dialer: `net.ResolveTCPAddr`, `addr.CheckAddr`
(package `addr` is not part of the sources at hand, the dialer only passes its verdict on),
`proxy.SOCKS5`, the dial through the proxy and the direct dial. -/
structure NetEnv where
  ResolveTCPAddr : String → Except Err TCPAddr
  CheckAddr : IP → Option Err
  SOCKS5 : TCPAddr → Auth → Option Err
  proxyDial : TCPAddr → Auth → Nat → String → Except Err SockConn
  directDial : Nat → Nat → TCPAddr → Except Err SockConn

/-- The two results of `DialContext` and the calls it made, in order. -/
structure DialResult where
  conn : Option SockConn
  err : Option Err
  calls : List NetCall
deriving DecidableEq, Repr

/-- The flag `use_proxy` of `DialContext`. -/
def use_proxy (proxy_uri : Option URL) : Bool :=
  match proxy_uri with
  | none => false
  | some p => p.Scheme == "socks" || p.Scheme == "socks5" || p.Scheme == "socks5h"

/-- The branch `if use_proxy { ... }` of `DialContext`, the dial through a SOCKS5 proxy. -/
def dialSocks5 (env : NetEnv) (d : TcpDialer) (uri proxy_uri : URL) : DialResult :=
  match env.ResolveTCPAddr proxy_uri.Host with
  | Except.error e => ⟨none, some e, [NetCall.resolve proxy_uri.Host]⟩
  | Except.ok dialerdst =>
    match env.CheckAddr dialerdst.IP with
    | some e =>
      ⟨none, some e, [NetCall.resolve proxy_uri.Host, NetCall.checkAddr dialerdst.IP]⟩
    | none =>
      let auth : Auth :=
        match proxy_uri.User with
        | none => ⟨"", ""⟩
        | some u => ⟨u.username, u.password.getD ""⟩
      let calls := [NetCall.resolve proxy_uri.Host, NetCall.checkAddr dialerdst.IP,
        NetCall.socks5 dialerdst auth]
      match env.SOCKS5 dialerdst auth with
      | some e => ⟨none, some e, calls⟩
      | none =>
        let calls := calls ++ [NetCall.proxyDial d.Timeout uri.Host]
        match env.proxyDial dialerdst auth d.Timeout uri.Host with
        | Except.error e => ⟨none, some e, calls⟩
        | Except.ok conn =>
          match env.CheckAddr conn.laddr with
          | some e => ⟨none, some e, calls ++ [NetCall.checkAddr conn.laddr, NetCall.close]⟩
          | none =>
            match env.CheckAddr conn.raddr with
            | some e =>
              ⟨none, some e, calls ++ [NetCall.checkAddr conn.laddr,
                NetCall.checkAddr conn.raddr, NetCall.close]⟩
            | none =>
              ⟨some conn, none, calls ++ [NetCall.checkAddr conn.laddr,
                NetCall.checkAddr conn.raddr]⟩

/-- The branch `else { ... }` of `DialContext`, the direct dial. -/
def dialDirect (env : NetEnv) (d : TcpDialer) (uri : URL) : DialResult :=
  match env.ResolveTCPAddr uri.Host with
  | Except.error e => ⟨none, some e, [NetCall.resolve uri.Host]⟩
  | Except.ok dst =>
    match env.CheckAddr dst.IP with
    | some e => ⟨none, some e, [NetCall.resolve uri.Host, NetCall.checkAddr dst.IP]⟩
    | none =>
      let calls := [NetCall.resolve uri.Host, NetCall.checkAddr dst.IP,
        NetCall.directDial d.Timeout d.KeepAlive dst]
      match env.directDial d.Timeout d.KeepAlive dst with
      | Except.error e => ⟨none, some e, calls⟩
      | Except.ok conn => ⟨some conn, none, calls⟩

/-- The method `TcpDialer.DialContext`. -/
def TcpDialer.DialContext (env : NetEnv) (d : TcpDialer) (uri : URL)
    (proxy_uri : Option URL) : DialResult :=
  if use_proxy proxy_uri then
    match proxy_uri with
    | some p => dialSocks5 env d uri p
    | none => dialDirect env d uri
  else dialDirect env d uri

/-- Whether a call opens a connection. -/
def NetCall.isDial : NetCall → Bool
  | NetCall.proxyDial _ _ => true
  | NetCall.directDial _ _ _ => true
  | _ => false

/-- Whether a call is the direct dial. -/
def NetCall.isDirectDial : NetCall → Bool
  | NetCall.directDial _ _ _ => true
  | _ => false

/-- Whether a call goes to the SOCKS5 proxy: the making of its dialer or the dial through
it. -/
def NetCall.isSocks : NetCall → Bool
  | NetCall.socks5 _ _ => true
  | NetCall.proxyDial _ _ => true
  | _ => false

/-- A world in which every name resolves to the loopback address, which the address check
rejects with error 1, and every dial succeeds. -/
def loopbackEnv : NetEnv :=
  { ResolveTCPAddr := fun _ => Except.ok ⟨[127, 0, 0, 1], 80⟩
    CheckAddr := fun ip => if ip = [127, 0, 0, 1] then some (Err.other 1) else none
    SOCKS5 := fun _ _ => none
    proxyDial := fun _ _ _ _ => Except.ok ⟨[10, 0, 0, 1], [10, 0, 0, 2]⟩
    directDial := fun _ _ _ => Except.ok ⟨[10, 0, 0, 1], [10, 0, 0, 2]⟩ }

/-- A world in which every name resolves to `10.0.0.9`, the address check lets every address
pass, and every dial succeeds. -/
def openEnv : NetEnv :=
  { ResolveTCPAddr := fun _ => Except.ok ⟨[10, 0, 0, 9], 1080⟩
    CheckAddr := fun _ => none
    SOCKS5 := fun _ _ => none
    proxyDial := fun _ _ _ _ => Except.ok ⟨[10, 0, 0, 1], [10, 0, 0, 2]⟩
    directDial := fun _ _ _ => Except.ok ⟨[10, 0, 0, 3], [10, 0, 0, 4]⟩ }

/-! ## Reading from the raw stream -/

theorem ReadFullLoop_done {σ : Type} (read : σ → Nat → Option (List Byte × Option Err × σ))
    (fuel : Nat) (s : σ) (size : Nat) (acc : List Byte) (err : Option Err)
    (h : size ≤ acc.length) :
    ReadFullLoop read fuel s size acc err = some (acc, none, s) := by
  have h1 : ¬ (acc.length < size ∧ err = none) := fun hh => absurd hh.1 (Nat.not_lt.mpr h)
  cases fuel <;> simp only [ReadFullLoop, h1, if_false, readFullEnd, h, if_true]

theorem ReadFullLoop_step {σ : Type} (read : σ → Nat → Option (List Byte × Option Err × σ))
    (fuel : Nat) (s : σ) (size : Nat) (acc : List Byte)
    (h : acc.length < size) :
    ReadFullLoop read (fuel + 1) s size acc none =
      match read s (size - acc.length) with
      | none => none
      | some (d, e, s1) => ReadFullLoop read fuel s1 size (acc ++ d) e := by
  rw [ReadFullLoop]
  simp only [h, and_self, if_true]

theorem Conn.readLoop_enough (chunks : List Chunk) :
    ∀ (c : Conn) (fuel size : Nat) (acc : List Byte),
      c.incoming = chunks → c.closed = false → chunks.length ≤ fuel →
      size - acc.length ≤ c.content.length →
      ∃ c1, ReadFullLoop Conn.Read fuel c size acc none
            = some (acc ++ c.content.take (size - acc.length), none, c1)
        ∧ c1.content = c.content.drop (size - acc.length)
        ∧ c1.closed = false ∧ c1.atEnd = c.atEnd ∧ c1.closeErr = c.closeErr
        ∧ c1.writeErr = c.writeErr ∧ c1.written = c.written
        ∧ c1.incoming.length ≤ chunks.length
        ∧ (∀ T, (∀ ch ∈ chunks, ch.arrival ≤ T) → c.now ≤ T → c1.now ≤ T) := by
  induction chunks with
  | nil =>
    intro c fuel size acc hin hcl _ hneed
    have hc : c.content = [] := by simp [Conn.content, hin]
    rw [hc] at hneed
    simp only [List.length_nil, Nat.le_zero] at hneed
    have hsz : size ≤ acc.length := Nat.sub_eq_zero_iff_le.mp hneed
    refine ⟨c, ?_, ?_, hcl, rfl, rfl, rfl, rfl, by simp [hin], fun T _ h => h⟩
    · rw [ReadFullLoop_done _ _ _ _ _ _ hsz, hneed]; simp
    · rw [hneed]; simp
  | cons ch rest ih =>
    intro c fuel size acc hin hcl hfuel hneed
    by_cases hsz : size ≤ acc.length
    · have h0 : size - acc.length = 0 := Nat.sub_eq_zero_iff_le.mpr hsz
      refine ⟨c, ?_, ?_, hcl, rfl, rfl, rfl, rfl, by simp [hin], fun T _ h => h⟩
      · rw [ReadFullLoop_done _ _ _ _ _ _ hsz, h0]; simp
      · rw [h0]; simp
    · have hlt : acc.length < size := Nat.lt_of_not_le hsz
      obtain ⟨f, rfl⟩ : ∃ f, fuel = f + 1 := ⟨fuel - 1, by simp at hfuel; omega⟩
      have hc : c.content = ch.data ++ (rest.map Chunk.data).flatten := by
        simp [Conn.content, hin]
      rw [ReadFullLoop_step _ _ _ _ _ hlt]
      by_cases hfit : ch.data.length ≤ size - acc.length
      · have hread : Conn.Read c (size - acc.length)
            = some (ch.data, none, { c with incoming := rest, now := max c.now ch.arrival }) := by
          simp [Conn.Read, hcl, hin, hfit]
        rw [hread]
        have hneed1 : size - (acc ++ ch.data).length
            ≤ (Conn.content { c with incoming := rest, now := max c.now ch.arrival }).length := by
          rw [hc] at hneed
          simp only [Conn.content, List.length_append] at hneed ⊢
          omega
        obtain ⟨c1, h1, h2, h3, h4, h5, h6, h7, h8, h9⟩ :=
          ih { c with incoming := rest, now := max c.now ch.arrival } f size (acc ++ ch.data)
            rfl hcl (by simp at hfuel; omega) hneed1
        refine ⟨c1, ?_, ?_, h3, h4, h5, h6, h7, by simp; omega, ?_⟩
        · simp only [h1, hc]
          have : size - (acc ++ ch.data).length = size - acc.length - ch.data.length := by
            simp only [List.length_append]; omega
          rw [this, List.take_append_eq_append_take, List.take_of_length_le hfit]
          simp [Conn.content]
        · rw [h2, hc]
          have : size - (acc ++ ch.data).length = size - acc.length - ch.data.length := by
            simp only [List.length_append]; omega
          rw [this, List.drop_append_eq_append_drop, List.drop_of_length_le hfit]
          simp [Conn.content]
        · intro T hT hnow
          apply h9 T (fun x hx => hT x (List.mem_cons_of_mem _ hx))
          exact max_le hnow (hT ch (List.mem_cons_self _ _))
      · have hgt : size - acc.length < ch.data.length := Nat.lt_of_not_le hfit
        have hread : Conn.Read c (size - acc.length)
            = some (ch.data.take (size - acc.length), none,
                { c with incoming := { ch with data := ch.data.drop (size - acc.length) } :: rest,
                         now := max c.now ch.arrival }) := by
          simp [Conn.Read, hcl, hin, hfit]
        rw [hread]
        simp only
        have hfull : size ≤ (acc ++ ch.data.take (size - acc.length)).length := by
          simp only [List.length_append, List.length_take]; omega
        rw [ReadFullLoop_done _ _ _ _ _ _ hfull]
        refine ⟨{ c with incoming := { ch with data := ch.data.drop (size - acc.length) } :: rest,
                         now := max c.now ch.arrival }, ?_, ?_, hcl, rfl, rfl, rfl, rfl,
                by simp, ?_⟩
        · rw [hc, List.take_append_eq_append_take]
          have : size - acc.length - ch.data.length = 0 := by omega
          simp [this]
        · rw [hc, List.drop_append_eq_append_drop]
          have : size - acc.length - ch.data.length = 0 := by omega
          simp [this, Conn.content]
        · intro T hT hnow
          exact max_le hnow (hT ch (List.mem_cons_self _ _))

/-- The loop on a raw stream, with one read more than there are pending writes, ends without
a result only when the read blocks: the stream is open, the peer stays silent after its
pending writes, and these do not fill the destination. -/
theorem Conn.readLoop_none (chunks : List Chunk) :
    ∀ (c : Conn) (fuel size : Nat) (acc : List Byte) (err : Option Err),
      c.incoming = chunks → chunks.length + 1 ≤ fuel →
      ReadFullLoop Conn.Read fuel c size acc err = none →
      c.closed = false ∧ c.atEnd = none ∧ acc.length + c.content.length < size := by
  induction chunks with
  | nil =>
    intro c fuel size acc err hin hfuel hnone
    obtain ⟨f, rfl⟩ : ∃ f, fuel = f + 1 := ⟨fuel - 1, by omega⟩
    rw [ReadFullLoop] at hnone
    by_cases hcond : acc.length < size ∧ err = none
    · rw [if_pos hcond] at hnone
      by_cases hcl : c.closed = true
      · simp only [Conn.Read, hcl, if_true] at hnone
        cases f <;> simp [ReadFullLoop] at hnone
      · have hcl1 : c.closed = false := Bool.eq_false_iff.mpr hcl
        cases hend : c.atEnd with
        | none => exact ⟨hcl1, rfl, by simpa [Conn.content, hin] using hcond.1⟩
        | some te =>
          simp only [Conn.Read, hcl1, hin, hend] at hnone
          cases f <;> simp [ReadFullLoop] at hnone
    · rw [if_neg hcond] at hnone
      exact absurd hnone (by simp)
  | cons ch rest ih =>
    intro c fuel size acc err hin hfuel hnone
    obtain ⟨f, rfl⟩ : ∃ f, fuel = f + 1 := ⟨fuel - 1, by omega⟩
    have hc : c.content = ch.data ++ (rest.map Chunk.data).flatten := by
      simp [Conn.content, hin]
    rw [ReadFullLoop] at hnone
    by_cases hcond : acc.length < size ∧ err = none
    · rw [if_pos hcond] at hnone
      by_cases hcl : c.closed = true
      · simp only [Conn.Read, hcl, if_true] at hnone
        cases f <;> simp [ReadFullLoop] at hnone
      · have hcl1 : c.closed = false := Bool.eq_false_iff.mpr hcl
        by_cases hfit : ch.data.length ≤ size - acc.length
        · simp only [Conn.Read, hcl1, hin, hfit, if_true, Bool.false_eq_true, if_false] at hnone
          obtain ⟨h1, h2, h3⟩ := ih _ f size (acc ++ ch.data) none rfl
            (by simp at hfuel; omega) hnone
          refine ⟨hcl1, h2, ?_⟩
          rw [hc]
          simp only [Conn.content, List.length_append] at h3 ⊢
          omega
        · simp only [Conn.Read, hcl1, hin, hfit, if_false, Bool.false_eq_true] at hnone
          have hfull : size ≤ (acc ++ ch.data.take (size - acc.length)).length := by
            simp only [List.length_append, List.length_take]; omega
          rw [ReadFullLoop_done _ _ _ _ _ _ hfull] at hnone
          exact absurd hnone (by simp)
    · rw [if_neg hcond] at hnone
      exact absurd hnone (by simp)

/-- The call `io.ReadFull(conn, buf)` on a raw stream blocks for ever only on an open stream
whose peer stays silent before the destination is full. -/
theorem Conn.ReadFull_none (c : Conn) (size : Nat) (h : c.ReadFull size = none) :
    c.closed = false ∧ c.atEnd = none ∧ c.content.length < size := by
  have := Conn.readLoop_none c.incoming c (c.incoming.length + 1) size [] none rfl
    (Nat.le_refl _) h
  simpa using this

/-- The size of the preamble: `len(META_HEADER) + 2 + PublicKeySize` is 38. -/
theorem preamble_size : META_HEADER.length + 2 + PublicKeySize = 38 := by decide

/-- On an open stream that holds at least `size` bytes, `io.ReadFull` returns the first
`size` bytes with a nil error and leaves the others in the stream, in order. -/
theorem Conn.ReadFull_enough (c : Conn) (size : Nat) (hcl : c.closed = false)
    (hlen : size ≤ c.content.length) :
    ∃ c1, c.ReadFull size = some (c.content.take size, none, c1)
      ∧ c1.content = c.content.drop size
      ∧ c1.closed = false ∧ c1.atEnd = c.atEnd ∧ c1.closeErr = c.closeErr
      ∧ c1.writeErr = c.writeErr ∧ c1.written = c.written
      ∧ c1.incoming.length ≤ c.incoming.length
      ∧ (∀ T, (∀ ch ∈ c.incoming, ch.arrival ≤ T) → c.now ≤ T → c1.now ≤ T) := by
  have h := Conn.readLoop_enough c.incoming c (c.incoming.length + 1) size [] rfl hcl
    (Nat.le_succ _) (by simpa using hlen)
  simpa [Conn.ReadFull, Ytl.ReadFull] using h

/-- The parser on an open stream that holds at least 38 bytes: the destination is the first
38 bytes `p` of the stream and the three tests of the parser are made on them. -/
theorem internalParceMetaPackage_enough (c : Conn) (hcl : c.closed = false)
    (hlen : 38 ≤ c.content.length) :
    ∃ c1, c1.content = c.content.drop 38
      ∧ c1.closed = false ∧ c1.atEnd = c.atEnd ∧ c1.closeErr = c.closeErr
      ∧ c1.writeErr = c.writeErr ∧ c1.written = c.written
      ∧ c1.incoming.length ≤ c.incoming.length
      ∧ (∀ T, (∀ ch ∈ c.incoming, ch.arrival ≤ T) → c.now ≤ T → c1.now ≤ T)
      ∧ internalParceMetaPackage c = some
          (let p := c.content.take 38
           if META_HEADER ≠ p.take 4 then ⟨some Err.UnknownProtoError, none, none, some p, c1⟩
           else if p.getD 4 0 ≠ 0 ∨ p.getD 5 0 ≠ 4 then
             ⟨some (Err.UnknownProtoVersionError PROTO_VERSION ⟨p.getD 4 0, p.getD 5 0⟩),
               some ⟨p.getD 4 0, p.getD 5 0⟩, none, some p, c1⟩
           else ⟨none, some ⟨p.getD 4 0, p.getD 5 0⟩, some (p.drop 6), some p, c1⟩) := by
  obtain ⟨c1, h1, h2, h3, h4, h5, h6, h7, h8, h9⟩ := Conn.ReadFull_enough c 38 hcl hlen
  refine ⟨c1, h2, h3, h4, h5, h6, h7, h8, h9, ?_⟩
  have hp : (c.content.take 38).length = 38 := by
    rw [List.length_take]; exact Nat.min_eq_left hlen
  simp only [internalParceMetaPackage, preamble_size, h1, hp, Nat.sub_self, List.replicate_zero,
    List.append_nil]
  simp only [ne_eq, not_true_eq_false, if_false, PROTO_VERSION, PublicKeySize]
  have hm : META_HEADER.length = 4 := rfl
  simp only [hm]
  split_ifs <;> rfl

/-! ## The handshake -/

/-- The closure `onerror` on a wrapper that holds no error, whose channel of buffered bytes
is empty and whose close flag is in its channel. -/
theorem YggConn.onerror_fresh (y : YggConn) (e : Err) (m : DeduplicationManager) (b : Bool)
    (h1 : y.isClosed = some b) (h2 : y.extraReadBuffChn = none) (h3 : y.err = none) :
    y.onerror e m = some (y.failed e, m, []) := by
  simp [YggConn.onerror, YggConn.setErr, YggConn.Close, YggConn.failed, chanSend, h1, h2, h3]

/-- The handshake of a new wrapper, with the channel operations resolved. -/
theorem middleware_new (c : Conn) (tk : Option (List Byte)) (al : Option AllowList)
    (sec dm : Bool) (sid : Nat) (m : DeduplicationManager) :
    (newYggConn c tk al sec dm sid).middleware m =
      (let r := parceMetaPackage c Minute
       let y : YggConn :=
         { newYggConn r.conn tk al sec dm sid with
             pVersion := some r.version, otherPublicKey := some r.pkey }
       let buf : Option (List Byte) := if (r.buf.getD []).length = 0 then none else r.buf
       match r.err with
       | some e => some (y.failed e, m, [])
       | none =>
         if tk.isSome && bytesDiffer tk r.pkey then
           some (y.failed (Err.TransportSecurityCheckError tk r.pkey), m, [])
         else if al.isSome && !(AllowList.IsAllow (al.getD []) (r.pkey.getD [])) then
           some (y.failed
             (Err.IvalidPeerPublicKey "Key received from the peer is not in the allow list"),
             m, [])
         else if dm then
           match m.Check (r.pkey.getD []) sec.toNat sid with
           | (none, m1, ev) => some (y.failed Err.ConnClosedByDeduplicatorError, m1, ev)
           | (some h, m1, ev) =>
             some ({ y with closefn := some (CloseFn.cancel h), extraReadBuffChn := some buf },
               m1, ev)
         else some ({ y with extraReadBuffChn := some buf }, m, [])) := by
  simp only [YggConn.middleware, newYggConn, chanSend]
  generalize parceMetaPackage c Minute = r
  generalize (if (r.buf.getD []).length = 0 then none else r.buf) = buf
  cases hre : r.err with
  | some e =>
    simp only []
    rw [YggConn.onerror_fresh _ _ _ false rfl rfl rfl]
  | none =>
    simp only []
    by_cases h1 : (tk.isSome && bytesDiffer tk r.pkey) = true
    · rw [if_pos h1, if_pos h1, YggConn.onerror_fresh _ _ _ false rfl rfl rfl]
    · rw [if_neg h1, if_neg h1]
      by_cases h2 : (al.isSome && !(AllowList.IsAllow (al.getD []) (r.pkey.getD []))) = true
      · rw [if_pos h2, if_pos h2, YggConn.onerror_fresh _ _ _ false rfl rfl rfl]
      · rw [if_neg h2, if_neg h2]
        by_cases h3 : dm = true
        · rw [if_pos h3, if_pos h3]
          rcases hck : m.Check (r.pkey.getD []) sec.toNat sid with ⟨_ | h, m1, ev⟩
          · simp only []
            rw [YggConn.onerror_fresh _ _ _ false rfl rfl rfl]
            simp
          · simp only []
        · rw [if_neg h3, if_neg h3]

/-- The parser result is the one `select` takes when it is there before the timer fires. -/
theorem parceMetaPackage_in_time (c : Conn) (timeout : Nat) (r : ParseResult)
    (h : internalParceMetaPackage c = some r) (ht : r.conn.now < c.now + timeout) :
    parceMetaPackage c timeout = r := by
  simp [parceMetaPackage, h, ht]

/-- Whatever the timing, `parceMetaPackage` returns an error as soon as the parser does. -/
theorem parceMetaPackage_err (c : Conn) (timeout : Nat) (r : ParseResult) (e : Err)
    (h : internalParceMetaPackage c = some r) (he : r.err = some e) :
    (parceMetaPackage c timeout).err = some e
      ∨ (parceMetaPackage c timeout).err = some Err.ConnTimeoutError := by
  simp only [parceMetaPackage, h]
  split_ifs
  · exact Or.inl he
  · exact Or.inr rfl

/-- A stream whose first 38 bytes are `p` holds at least 38 bytes. -/
theorem content_length_of_take (c : Conn) (p : List Byte) (hp : p.length = 38)
    (hstart : c.content.take 38 = p) : 38 ≤ c.content.length := by
  have h := congrArg List.length hstart
  rw [List.length_take, hp] at h
  omega

/-- The two ways the handshake of a new wrapper ends. Either an error `e` is stored, for one
of five reasons, in this order: the parser (or its timer) returned `e`; the transport key is
set and differs from the key of the peer; the allow-list is set and lacks the key; the
manager is set and `Check` returned nil. Or all the checks passed and the bytes of the
parser are in the channel of buffered bytes. -/
theorem handshake_cases (c : Conn) (tk : Option (List Byte)) (al : Option AllowList)
    (sec : Bool) (dm : Option DeduplicationManager) (sid : Nat) :
    ∃ y m1 ev, ConnToYggConn (some c) tk al sec dm sid = some (some y, m1, ev) ∧
      ((∃ e, y = (published c tk al sec dm.isSome sid).failed e ∧
          ((parceMetaPackage c Minute).err = some e
            ∨ ((parceMetaPackage c Minute).err = none
                ∧ (tk.isSome && bytesDiffer tk (parceMetaPackage c Minute).pkey) = true
                ∧ e = Err.TransportSecurityCheckError tk (parceMetaPackage c Minute).pkey)
            ∨ ((parceMetaPackage c Minute).err = none
                ∧ (tk.isSome && bytesDiffer tk (parceMetaPackage c Minute).pkey) = false
                ∧ (al.isSome && !(AllowList.IsAllow (al.getD [])
                    ((parceMetaPackage c Minute).pkey.getD []))) = true
                ∧ e = Err.IvalidPeerPublicKey
                    "Key received from the peer is not in the allow list")
            ∨ ((parceMetaPackage c Minute).err = none
                ∧ (tk.isSome && bytesDiffer tk (parceMetaPackage c Minute).pkey) = false
                ∧ (al.isSome && !(AllowList.IsAllow (al.getD [])
                    ((parceMetaPackage c Minute).pkey.getD []))) = false
                ∧ dm.isSome = true
                ∧ e = Err.ConnClosedByDeduplicatorError)))
       ∨ (∃ cf, y = { published c tk al sec dm.isSome sid with
                        closefn := some cf
                        extraReadBuffChn := some
                          (if ((parceMetaPackage c Minute).buf.getD []).length = 0 then none
                           else (parceMetaPackage c Minute).buf) }
            ∧ (parceMetaPackage c Minute).err = none
            ∧ (tk.isSome && bytesDiffer tk (parceMetaPackage c Minute).pkey) = false
            ∧ (al.isSome && !(AllowList.IsAllow (al.getD [])
                ((parceMetaPackage c Minute).pkey.getD []))) = false)) := by
  simp only [ConnToYggConn, middleware_new, published]
  generalize parceMetaPackage c Minute = r
  cases hre : r.err with
  | some e => exact ⟨_, _, _, rfl, Or.inl ⟨e, rfl, Or.inl rfl⟩⟩
  | none =>
    simp only []
    by_cases h1 : (tk.isSome && bytesDiffer tk r.pkey) = true
    · rw [if_pos h1]
      exact ⟨_, _, _, rfl, Or.inl ⟨_, rfl, Or.inr (Or.inl ⟨trivial, h1, rfl⟩)⟩⟩
    · rw [if_neg h1]
      have h1f := Bool.eq_false_iff.mpr h1
      by_cases h2 : (al.isSome && !(AllowList.IsAllow (al.getD []) (r.pkey.getD []))) = true
      · rw [if_pos h2]
        exact ⟨_, _, _, rfl, Or.inl ⟨_, rfl, Or.inr (Or.inr (Or.inl ⟨trivial, h1f, h2, rfl⟩))⟩⟩
      · rw [if_neg h2]
        have h2f := Bool.eq_false_iff.mpr h2
        by_cases h3 : dm.isSome = true
        · rw [if_pos h3]
          rcases hck : (dm.getD ⟨false, []⟩).Check (r.pkey.getD []) sec.toNat sid with
            ⟨_ | h, m1, ev⟩
          · exact ⟨_, _, _, rfl,
              Or.inl ⟨_, rfl, Or.inr (Or.inr (Or.inr ⟨trivial, h1f, h2f, h3, rfl⟩))⟩⟩
          · exact ⟨_, _, _, rfl, Or.inr ⟨_, rfl, trivial, h1f, h2f⟩⟩
        · rw [if_neg h3]
          exact ⟨_, _, _, rfl, Or.inr ⟨CloseFn.noop, rfl, trivial, h1f, h2f⟩⟩

/-- The error a handshake ends with, as a function of what the parser returned. -/
theorem handshakeErr_eq (c : Conn) (tk : Option (List Byte)) (al : Option AllowList)
    (sec : Bool) (dm : Option DeduplicationManager) (sid : Nat) :
    handshakeErr c tk al sec dm sid = some
      (match (parceMetaPackage c Minute).err with
       | some e => some e
       | none =>
         if tk.isSome && bytesDiffer tk (parceMetaPackage c Minute).pkey then
           some (Err.TransportSecurityCheckError tk (parceMetaPackage c Minute).pkey)
         else if al.isSome && !(AllowList.IsAllow (al.getD [])
             ((parceMetaPackage c Minute).pkey.getD [])) then
           some (Err.IvalidPeerPublicKey "Key received from the peer is not in the allow list")
         else if dm.isSome && ((dm.getD ⟨false, []⟩).Check
             ((parceMetaPackage c Minute).pkey.getD []) sec.toNat sid).1.isNone then
           some Err.ConnClosedByDeduplicatorError
         else none) := by
  simp only [handshakeErr, wrapped, ConnToYggConn, middleware_new]
  generalize parceMetaPackage c Minute = r
  cases hre : r.err with
  | some e => rfl
  | none =>
    simp only []
    by_cases h1 : (tk.isSome && bytesDiffer tk r.pkey) = true
    · rw [if_pos h1, if_pos h1]; rfl
    · rw [if_neg h1, if_neg h1]
      by_cases h2 : (al.isSome && !(AllowList.IsAllow (al.getD []) (r.pkey.getD []))) = true
      · rw [if_pos h2, if_pos h2]; rfl
      · rw [if_neg h2, if_neg h2]
        cases dm with
        | none => rfl
        | some m0 =>
          simp only [Option.isSome_some, if_true, Option.getD_some, Bool.true_and]
          rcases hck : m0.Check (r.pkey.getD []) sec.toNat sid with ⟨_ | h, m1, ev⟩ <;> rfl

/-- The method `Close` never takes the branch that invokes `closefn`: whatever the wrapper,
no handle is invoked and the registry is left as it was. -/
theorem YggConn.Close_skips_closefn (y : YggConn) (m : DeduplicationManager) :
    (y.Close m).map (fun q => (q.2.2.1, q.2.2.2)) = y.isClosed.map (fun _ => (m, [])) := by
  cases h : y.isClosed with
  | none => simp [YggConn.Close, h]
  | some b => simp [YggConn.Close, h]

/-! ## Reading through the wrapper -/

/-- Once the buffer is nil and no error is stored, `YggConn.Read` is the read of the
stream. -/
theorem YggConn.Read_passthrough (y : YggConn) (n : Nat) (h : y.extraReadBuffChn = some none)
    (he : y.err = none) :
    y.Read n = (y.innerConn.Read n).map (fun r => (r.1, r.2.1, { y with innerConn := r.2.2 })) := by
  cases y
  simp only at h he
  subst h he
  simp only [YggConn.Read]
  cases Conn.Read _ n with
  | none => rfl
  | some r => rfl

/-- Once the buffer is nil and no error is stored, `io.ReadFull` on the wrapper is
`io.ReadFull` on the stream. -/
theorem ReadFullLoop_passthrough (fuel : Nat) :
    ∀ (y : YggConn) (size : Nat) (acc : List Byte) (err : Option Err),
      y.extraReadBuffChn = some none → y.err = none →
      ReadFullLoop YggConn.Read fuel y size acc err =
        (ReadFullLoop Conn.Read fuel y.innerConn size acc err).map
          (fun r => (r.1, r.2.1, { y with innerConn := r.2.2 })) := by
  induction fuel with
  | zero =>
    intro y size acc err _ _
    simp only [ReadFullLoop]
    split_ifs <;> rfl
  | succ f ih =>
    intro y size acc err h he
    simp only [ReadFullLoop]
    split_ifs
    · rw [YggConn.Read_passthrough y _ h he]
      cases hr : Conn.Read y.innerConn (size - acc.length) with
      | none => rfl
      | some r =>
        obtain ⟨d, e, c1⟩ := r
        simp only [Option.map_some']
        rw [ih { y with innerConn := c1 } size (acc ++ d) e h he]
    · rfl

/-- Reading through a wrapper that holds the non-empty buffer `buf`, stores no error and
sits on an open stream: `io.ReadFull` with a destination as long as the buffer and the
content of the stream together returns the buffer followed by that content. -/
theorem ReadFull_buffer_then_stream (y : YggConn) (buf : List Byte) (fuel : Nat)
    (hb : y.extraReadBuffChn = some (some buf)) (hne : buf ≠ []) (he : y.err = none)
    (hopen : y.innerConn.closed = false) (hfuel : y.innerConn.incoming.length + 1 ≤ fuel) :
    (ReadFull YggConn.Read fuel y (buf.length + y.innerConn.content.length)).map
        (fun r => (r.1, r.2.1))
      = some (buf ++ y.innerConn.content, none) := by
  obtain ⟨f, rfl⟩ : ∃ f, fuel = f + 1 := ⟨fuel - 1, by omega⟩
  have hpos : 0 < buf.length := List.length_pos.mpr hne
  have hlt : ([] : List Byte).length < buf.length + y.innerConn.content.length := by
    simp only [List.length_nil]; omega
  rw [ReadFull, ReadFullLoop_step _ _ _ _ _ hlt]
  have hmin : min (buf.length + y.innerConn.content.length) buf.length = buf.length := by
    omega
  have hread : y.Read (buf.length + y.innerConn.content.length - ([] : List Byte).length)
      = some (buf, none, { y with extraReadBuffChn := some none }) := by
    simp [YggConn.Read, hb, hmin]
  rw [hread]
  simp only [List.nil_append]
  rw [ReadFullLoop_passthrough f { y with extraReadBuffChn := some none } _ _ _ rfl he]
  obtain ⟨c1, h1, -⟩ := Conn.readLoop_enough y.innerConn.incoming y.innerConn f
    (buf.length + y.innerConn.content.length) buf rfl hopen (by omega) (by omega)
  simp only [h1, Option.map_some']
  have : buf.length + y.innerConn.content.length - buf.length = y.innerConn.content.length := by
    omega
  rw [this, List.take_length]

/-- The state in which a handshake without error leaves the wrapper, when the stream was open
and began with a valid preamble: the 38 bytes of the preamble are in the channel of buffered
bytes and the stream holds what followed them. -/
theorem handshake_ready (c : Conn) (tk : Option (List Byte)) (al : Option AllowList)
    (sec : Bool) (dm : Option DeduplicationManager) (sid : Nat)
    (y : YggConn) (m : Option DeduplicationManager) (ev : List Event)
    (hopen : c.closed = false) (hlen : 38 ≤ c.content.length)
    (hshake : ConnToYggConn (some c) tk al sec dm sid = some (some y, m, ev))
    (hok : y.err = none) :
    y.extraReadBuffChn = some (some (c.content.take 38))
      ∧ y.innerConn.content = c.content.drop 38
      ∧ y.innerConn.closed = false
      ∧ y.innerConn.incoming.length ≤ c.incoming.length
      ∧ (internalParceMetaPackage c).map (fun r => r.buf) = some (some (c.content.take 38)) := by
  obtain ⟨c1, hc1, hcl1, -, -, -, -, hinc, -, hparse⟩ :=
    internalParceMetaPackage_enough c hopen hlen
  have hkey : ∀ r, internalParceMetaPackage c = some r →
      r.buf = some (c.content.take 38) ∧ r.conn = c1 := by
    intro r hr
    rw [hparse] at hr
    have hr1 := (Option.some.inj hr).symm
    simp only at hr1
    subst hr1
    split_ifs <;> exact ⟨rfl, rfl⟩
  obtain ⟨r0, hr0⟩ : ∃ r, internalParceMetaPackage c = some r := ⟨_, hparse⟩
  have hbuf : (parceMetaPackage c Minute).err = none →
      (parceMetaPackage c Minute).buf = some (c.content.take 38)
        ∧ (parceMetaPackage c Minute).conn = c1 := by
    simp only [parceMetaPackage, hr0]
    split_ifs
    · intro _; exact hkey r0 hr0
    · intro h; exact absurd h (by simp)
  have hp : ¬ ((c.content.take 38).length = 0) := by
    rw [List.length_take, Nat.min_eq_left hlen]; simp
  have hfin : (internalParceMetaPackage c).map (fun r => r.buf)
      = some (some (c.content.take 38)) := by
    rw [hr0, Option.map_some', (hkey r0 hr0).1]
  simp only [ConnToYggConn, middleware_new] at hshake
  generalize parceMetaPackage c Minute = r at hshake hbuf
  cases hre : r.err with
  | some e =>
    simp only [hre, Option.some.injEq, Prod.mk.injEq] at hshake
    obtain ⟨hy, -, -⟩ := hshake
    subst hy
    simp [YggConn.failed] at hok
  | none =>
    obtain ⟨hb1, hb2⟩ := hbuf hre
    simp only [hre, hb1, hb2, Option.getD_some, hp, if_false] at hshake
    split_ifs at hshake with h1 h2 h3
    · simp only [Option.some.injEq, Prod.mk.injEq] at hshake
      obtain ⟨hy, -, -⟩ := hshake
      subst hy
      simp [YggConn.failed] at hok
    · simp only [Option.some.injEq, Prod.mk.injEq] at hshake
      obtain ⟨hy, -, -⟩ := hshake
      subst hy
      simp [YggConn.failed] at hok
    · rcases hck : (dm.getD ⟨false, []⟩).Check (r.pkey.getD []) sec.toNat sid with
        ⟨_ | h, m1, ev1⟩
      · rw [hck] at hshake
        simp only [Option.some.injEq, Prod.mk.injEq] at hshake
        obtain ⟨hy, -, -⟩ := hshake
        subst hy
        simp [YggConn.failed] at hok
      · rw [hck] at hshake
        simp only [Option.some.injEq, Prod.mk.injEq] at hshake
        obtain ⟨hy, -, -⟩ := hshake
        subst hy
        exact ⟨rfl, hc1, hcl1, hinc, hfin⟩
    · simp only [Option.some.injEq, Prod.mk.injEq] at hshake
      obtain ⟨hy, -, -⟩ := hshake
      subst hy
      exact ⟨rfl, hc1, hcl1, hinc, hfin⟩

/-! ## Operations after a failed handshake -/

/-- One call on a wrapper that stores the error `e`, holds `nil` in the channel of buffered
bytes and sits on a closed stream: the call returns `e` and leaves the wrapper in such a
state. -/
theorem YggConn.step_failed (y : YggConn) (m : DeduplicationManager) (e : Err) (op : Op)
    (he : y.err = some e) (hb : y.extraReadBuffChn = some none)
    (hc : y.isClosed.isSome = true) (hcl : y.innerConn.closed = true) :
    ∃ y1 m1, y.step m op = some (some e, y1, m1) ∧ y1.err = some e
      ∧ y1.extraReadBuffChn = some none ∧ y1.isClosed.isSome = true
      ∧ y1.innerConn.closed = true := by
  obtain ⟨b, hb1⟩ := Option.isSome_iff_exists.mp hc
  cases op with
  | read n =>
    refine ⟨{ y with extraReadBuffChn := some none }, m, ?_, he, rfl, hc, hcl⟩
    simp [YggConn.step, YggConn.Read, hb, Conn.Read, hcl, he]
  | write w =>
    refine ⟨(y.Write w).2.2, m, ?_, he, hb, hc, ?_⟩
    · simp [YggConn.step, YggConn.Write, he]
    · simp [YggConn.Write, Conn.Write, hcl]
  | close =>
    refine ⟨{ y with innerConn := (y.innerConn.Close).2, isClosed := some true }, m,
      ?_, he, hb, rfl, rfl⟩
    simp [YggConn.step, YggConn.Close, hb1, he]

/-- Every call of a sequence on such a wrapper returns the stored error, and the error is
still stored after the last of them. -/
theorem YggConn.run_failed (e : Err) (ops : List Op) :
    ∀ (y : YggConn) (m : DeduplicationManager), y.err = some e →
      y.extraReadBuffChn = some none → y.isClosed.isSome = true →
      y.innerConn.closed = true →
      (y.run m ops).map (fun r => (r.1, r.2.err))
        = some (ops.map (fun _ => some e), some e) := by
  induction ops with
  | nil => intro y m he _ _ _; simp [YggConn.run, he]
  | cons op ops ih =>
    intro y m he hb hc hcl
    obtain ⟨y1, m1, hs, he1, hb1, hc1, hcl1⟩ := YggConn.step_failed y m e op he hb hc hcl
    have h := ih y1 m1 he1 hb1 hc1 hcl1
    simp only [YggConn.run, hs, Option.map_map, List.map_cons]
    cases hr : YggConn.run y1 m1 ops with
    | none => simp [hr] at h
    | some r =>
      simp only [hr, Option.map_some', Option.some.injEq, Prod.mk.injEq] at h
      simp [h.1, h.2]

/-! ## The claims -/

/-- C1: for every open stream whose first 38 bytes `p` begin with `m e t a` and carry the
bytes 0 and 4 at positions 4 and 5, `internalParceMetaPackage` returns no error, the version
`(0, 4)` and the peer key `p[6..38]`, which has 32 bytes. -/
theorem C1_parse_valid_preamble (c : Conn) (p : List Byte) (hopen : c.closed = false)
    (hp : p.length = 38) (hstart : c.content.take 38 = p)
    (hmeta : p.take 4 = [109, 101, 116, 97]) (h4 : p.getD 4 0 = 0) (h5 : p.getD 5 0 = 4) :
    (internalParceMetaPackage c).map (fun r => (r.err, r.version, r.pkey))
        = some (none, some ⟨0, 4⟩, some (p.drop 6))
      ∧ (p.drop 6).length = 32 := by
  obtain ⟨c1, -, -, -, -, -, -, -, -, hparse⟩ :=
    internalParceMetaPackage_enough c hopen (content_length_of_take c p hp hstart)
  refine ⟨?_, by simp [hp]⟩
  rw [hparse]
  simp only [hstart, hmeta, h4, h5, META_HEADER, ne_eq, not_true_eq_false, or_self, if_false,
    Option.map_some']

/-- Witness of C1 on the stream of the mock transport. -/
theorem C1_parse_valid_preamble_witness :
    (internalParceMetaPackage mockConn).map (fun r => (r.err, r.version, r.pkey))
        = some (none, some ⟨0, 4⟩, some ((mockHeader ++ mockKey).drop 6))
      ∧ ((mockHeader ++ mockKey).drop 6).length = 32 :=
  C1_parse_valid_preamble mockConn (mockHeader ++ mockKey) (by decide) (by decide) (by decide)
    (by decide) (by decide) (by decide)

/-- C2, the claim as stated fails: on a stream with the header `a t a m` the parser returns
`UnknownProtoError` with nil version and nil key, and the stream is still open. -/
theorem C2_parser_leaves_stream_open :
    wrongProtoConn.closed = false ∧ 38 ≤ wrongProtoConn.content.length
      ∧ wrongProtoConn.content.take 4 ≠ META_HEADER
      ∧ (internalParceMetaPackage wrongProtoConn).map
          (fun r => (r.err, r.version, r.pkey, r.conn.closed))
        = some (some Err.UnknownProtoError, none, none, false) := by
  decide

/-- C2, amended: for every open stream that holds at least 38 bytes and whose first 4 bytes
are not `META_HEADER`, `internalParceMetaPackage` returns `UnknownProtoError` with nil
version and nil key and leaves the stream open; the handshake of every wrapper built over
that stream ends with an error stored (this one, or the timeout) and with the stream
closed. -/
theorem C2_wrong_header (c : Conn) (tk : Option (List Byte)) (al : Option AllowList)
    (sec : Bool) (dm : Option DeduplicationManager) (sid : Nat)
    (hopen : c.closed = false) (hlen : 38 ≤ c.content.length)
    (hmeta : c.content.take 4 ≠ META_HEADER) :
    (internalParceMetaPackage c).map (fun r => (r.err, r.version, r.pkey, r.conn.closed))
        = some (some Err.UnknownProtoError, none, none, false)
      ∧ (ConnToYggConn (some c) tk al sec dm sid).map
          (fun r => r.1.map (fun y => (y.innerConn.closed,
            decide (y.err = some Err.UnknownProtoError ∨ y.err = some Err.ConnTimeoutError))))
        = some (some (true, true)) := by
  obtain ⟨c1, -, hc1, -, -, -, -, -, -, hparse⟩ := internalParceMetaPackage_enough c hopen hlen
  have hne : META_HEADER ≠ (c.content.take 38).take 4 := by
    rw [List.take_take]; exact fun h => hmeta h.symm
  simp only [hne, ne_eq, not_false_eq_true, if_true] at hparse
  refine ⟨by simp [hparse, hc1], ?_⟩
  have herr := parceMetaPackage_err c Minute _ Err.UnknownProtoError hparse rfl
  simp only [ConnToYggConn, middleware_new]
  rcases herr with h | h <;>
    simp [h, YggConn.failed, Conn.Close]

/-- Witness of C2 (amended) on the stream with the header `a t a m`. -/
theorem C2_wrong_header_witness :
    (internalParceMetaPackage wrongProtoConn).map
          (fun r => (r.err, r.version, r.pkey, r.conn.closed))
        = some (some Err.UnknownProtoError, none, none, false)
      ∧ (ConnToYggConn (some wrongProtoConn) none none false none 0).map
          (fun r => r.1.map (fun y => (y.innerConn.closed,
            decide (y.err = some Err.UnknownProtoError ∨ y.err = some Err.ConnTimeoutError))))
        = some (some (true, true)) :=
  C2_wrong_header wrongProtoConn none none false none 0 (by decide) (by decide) (by decide)

/-- C3: for every open stream whose first 38 bytes begin with `META_HEADER` and carry
version bytes `(a, b)` other than `(0, 4)`, the parser returns `UnknownProtoVersionError`
with `Expected = (0, 4)` and `Received = (a, b)`, the version `(a, b)` and a nil key. -/
theorem C3_parse_wrong_version (c : Conn) (p : List Byte) (a b : Byte)
    (hopen : c.closed = false) (hp : p.length = 38) (hstart : c.content.take 38 = p)
    (hmeta : p.take 4 = META_HEADER) (ha : p.getD 4 0 = a) (hb : p.getD 5 0 = b)
    (hv : ¬ (a = 0 ∧ b = 4)) :
    (internalParceMetaPackage c).map (fun r => (r.err, r.version, r.pkey))
      = some (some (Err.UnknownProtoVersionError ⟨0, 4⟩ ⟨a, b⟩), some ⟨a, b⟩, none) := by
  obtain ⟨c1, -, -, -, -, -, -, -, -, hparse⟩ :=
    internalParceMetaPackage_enough c hopen (content_length_of_take c p hp hstart)
  rw [hparse]
  have hv1 : a ≠ 0 ∨ b ≠ 4 := by
    by_cases h0 : a = 0
    · exact Or.inr (fun h => hv ⟨h0, h⟩)
    · exact Or.inl h0
  simp only [hstart, hmeta, ha, hb, hv1, PROTO_VERSION, ne_eq, not_true_eq_false, if_false,
    if_true, Option.map_some']

/-- Witness of C3 on a stream that announces version `(1, 5)`. -/
theorem C3_parse_wrong_version_witness :
    (internalParceMetaPackage wrongVerConn).map (fun r => (r.err, r.version, r.pkey))
      = some (some (Err.UnknownProtoVersionError ⟨0, 4⟩ ⟨1, 5⟩), some ⟨1, 5⟩, none) :=
  C3_parse_wrong_version wrongVerConn ([109, 101, 116, 97, 1, 5] ++ mockKey) 1 5
    (by decide) (by decide) (by decide) (by decide) (by decide) (by decide) (by decide)

/-- C4, the claim as stated fails: over the stream of the mock transport (preamble, then the
payload `mockInfo` from raw byte 38 on) the handshake ends without error, and the first
`Read` of one byte returns `m`, raw byte 0, not the first byte of the payload. -/
theorem C4_first_read_returns_meta_byte :
    handshakeErr mockConn (some mockKey) none false none 0 = some none
      ∧ mockConn.content.drop 38 = mockInfo
      ∧ (wrapped mockConn (some mockKey) none false none 0).bind
          (fun y => (y.Read 1).map (fun r => (r.1, r.2.1))) = some ([109], none)
      ∧ ([109] : List Byte) ≠ mockInfo.take 1 := by
  decide

/-- C4, amended: for every wrapper built by `ConnToYggConn` over an open stream that holds at
least 38 bytes, once the handshake ended without error the first `Read` into a destination
of `n` bytes returns, with a nil error, the first `min n 38` bytes of the raw stream: the
preamble is handed to the reader, from raw byte 0 on. -/
theorem C4_first_read_replays_preamble (c : Conn) (tk : Option (List Byte))
    (al : Option AllowList) (sec : Bool) (dm : Option DeduplicationManager) (sid n : Nat)
    (hopen : c.closed = false) (hlen : 38 ≤ c.content.length)
    (hok : handshakeErr c tk al sec dm sid = some none) :
    (wrapped c tk al sec dm sid).bind (fun y => (y.Read n).map (fun r => (r.1, r.2.1)))
      = some (c.content.take (min n 38), none) := by
  obtain ⟨y, m1, ev, hc, -⟩ := handshake_cases c tk al sec dm sid
  have hw : wrapped c tk al sec dm sid = some y := by simp [wrapped, hc]
  have hy : y.err = none := by simpa [handshakeErr, hw] using hok
  obtain ⟨hb, -, -, -, -⟩ := handshake_ready c tk al sec dm sid y m1 ev hopen hlen hc hy
  have hl : (c.content.take 38).length = 38 := by
    rw [List.length_take]; exact Nat.min_eq_left hlen
  simp only [hw, Option.some_bind, YggConn.Read, hb, Option.map_some', hl, List.take_take]
  rw [Nat.min_assoc, Nat.min_self]

/-- Witness of C4 (amended) on the stream of the mock transport, with a destination of
four bytes. -/
theorem C4_first_read_replays_preamble_witness :
    (wrapped mockConn (some mockKey) none false none 0).bind
        (fun y => (y.Read 4).map (fun r => (r.1, r.2.1)))
      = some (mockConn.content.take (min 4 38), none) :=
  C4_first_read_replays_preamble mockConn (some mockKey) none false none 0 4 (by decide)
    (by decide) (by decide)

/-- C5: for every open raw stream with content `d` of at least 38 bytes, with or without a
deduplication manager, once the handshake ended without error (so `d` begins with a valid
preamble) `io.ReadFull` through the wrapper with a destination of `len(d)` bytes returns
exactly `d` with a nil error, whenever the loop is given one read more than the stream has
pending writes; and the buffer returned by the parser is `d[0..38]`. -/
theorem C5_read_returns_raw_stream (c : Conn) (tk : Option (List Byte))
    (al : Option AllowList) (sec : Bool) (dm : Option DeduplicationManager) (sid : Nat)
    (d : List Byte) (fuel : Nat)
    (hopen : c.closed = false) (hd : c.content = d) (hlen : 38 ≤ d.length)
    (hok : handshakeErr c tk al sec dm sid = some none)
    (hfuel : c.incoming.length + 1 ≤ fuel) :
    (wrapped c tk al sec dm sid).bind
        (fun y => (ReadFull YggConn.Read fuel y d.length).map (fun r => (r.1, r.2.1)))
        = some (d, none)
      ∧ (internalParceMetaPackage c).map (fun r => r.buf) = some (some (d.take 38)) := by
  subst hd
  obtain ⟨y, m1, ev, hc, -⟩ := handshake_cases c tk al sec dm sid
  have hw : wrapped c tk al sec dm sid = some y := by simp [wrapped, hc]
  have hy : y.err = none := by simpa [handshakeErr, hw] using hok
  obtain ⟨hb, hcont, hcl, hinc, hbuf⟩ :=
    handshake_ready c tk al sec dm sid y m1 ev hopen hlen hc hy
  refine ⟨?_, hbuf⟩
  have hl : (c.content.take 38).length = 38 := by
    rw [List.length_take]; exact Nat.min_eq_left hlen
  have hne : c.content.take 38 ≠ [] := by
    intro h; rw [h] at hl; simp at hl
  have hread := ReadFull_buffer_then_stream y (c.content.take 38) fuel hb hne hy hcl
    (by omega)
  have hsz : (c.content.take 38).length + y.innerConn.content.length = c.content.length := by
    rw [hl, hcont, List.length_drop]; omega
  rw [hsz, hcont, List.take_append_drop] at hread
  simp only [hw, Option.some_bind, hread]

/-- Witness of C5 on the stream of the mock transport, with a strict deduplication manager
that holds no entry. -/
theorem C5_read_returns_raw_stream_witness :
    (wrapped mockConn (some mockKey) none false (some ⟨true, []⟩) 0).bind
        (fun y => (ReadFull YggConn.Read 4 y (mockHeader ++ mockKey ++ mockInfo).length).map
          (fun r => (r.1, r.2.1)))
        = some (mockHeader ++ mockKey ++ mockInfo, none)
      ∧ (internalParceMetaPackage mockConn).map (fun r => r.buf)
        = some (some ((mockHeader ++ mockKey ++ mockInfo).take 38)) :=
  C5_read_returns_raw_stream mockConn (some mockKey) none false (some ⟨true, []⟩) 0
    (mockHeader ++ mockKey ++ mockInfo) 4 (by decide) (by decide) (by decide) (by decide)
    (by decide)

/-- C6, the code at the failing input: a wrapper is built over the stream of the mock
transport with a manager that holds no entry; after the handshake `closefn` is the cancel
handle that `Check` returned and the registry holds the entry of the peer. The first `Close`
invokes no handle, the entry stays in the registry, and the stream is closed. -/
theorem C6_close_skips_cancel_handle :
    (ConnToYggConn (some mockConn) none none false (some ⟨true, []⟩) 7).bind
        (fun r => r.1.bind (fun y => (y.Close (r.2.1.getD ⟨false, []⟩)).map
          (fun q => (y.closefn, r.2.1.map (fun m => m.entries), q.2.2.2, q.2.2.1.entries,
            q.2.1.innerConn.closed))))
      = some (some (CloseFn.cancel ⟨mockKey, 7⟩), some [⟨mockKey, 0, 7⟩], [],
          [⟨mockKey, 0, 7⟩], true) := by
  decide

/-- C8: for every wrapper built with a transport key `t` over a stream whose preamble parses
with peer key `k`: if `k` differs from `t` the handshake ends with
`TransportSecurityCheckError` with `Expected = t` and `Received = k`; if `k` equals `t` the
handshake ends as it does without a transport key, and not with a
`TransportSecurityCheckError`. -/
theorem C8_transport_key_check (c : Conn) (al : Option AllowList) (sec : Bool)
    (dm : Option DeduplicationManager) (sid : Nat) (t k : List Byte)
    (hparse : (parceMetaPackage c Minute).err = none)
    (hk : (parceMetaPackage c Minute).pkey = some k) :
    (k ≠ t → handshakeErr c (some t) al sec dm sid
        = some (some (Err.TransportSecurityCheckError (some t) (some k))))
      ∧ (k = t → handshakeErr c (some t) al sec dm sid = handshakeErr c none al sec dm sid
          ∧ (handshakeErr c (some t) al sec dm sid).map
              (fun e => e.map Err.isTransportSecurityCheck) ≠ some (some true)) := by
  constructor
  · intro hne
    have hd : bytesDiffer (some t) (some k) = true := by
      simp only [bytesDiffer, Option.getD_some, decide_eq_true_eq]
      exact fun h => hne h.symm
    rw [handshakeErr_eq, hparse, hk]
    simp only [Option.isSome_some, Bool.true_and, hd, if_true]
  · intro heq
    subst heq
    have hd : bytesDiffer (some k) (some k) = false := by
      simp [bytesDiffer]
    rw [handshakeErr_eq, handshakeErr_eq, hparse, hk]
    simp only [Option.isSome_some, Bool.true_and, hd, Bool.false_eq_true, if_false,
      Option.isSome_none, Bool.false_and, true_and]
    split_ifs <;> simp [Err.isTransportSecurityCheck]

/-- Witness of C8 on the stream of the mock transport, with its key as transport key. -/
theorem C8_transport_key_check_witness :
    (mockKey ≠ mockKey → handshakeErr mockConn (some mockKey) none false none 0
        = some (some (Err.TransportSecurityCheckError (some mockKey) (some mockKey))))
      ∧ (mockKey = mockKey →
          handshakeErr mockConn (some mockKey) none false none 0
            = handshakeErr mockConn none none false none 0
          ∧ (handshakeErr mockConn (some mockKey) none false none 0).map
              (fun e => e.map Err.isTransportSecurityCheck) ≠ some (some true)) :=
  C8_transport_key_check mockConn none false none 0 mockKey mockKey (by decide) (by decide)

/-- C9: for every wrapper over a stream whose preamble parses with peer key `k` and passes
the transport-key check (no transport key, or the key `k`): with an allow-list `l` that does
not contain `k` the handshake ends with `IvalidPeerPublicKey`, so with the empty list for
every peer; with no allow-list the handshake does not end with `IvalidPeerPublicKey`. -/
theorem C9_allow_list_check (c : Conn) (tk : Option (List Byte)) (sec : Bool)
    (dm : Option DeduplicationManager) (sid : Nat) (k : List Byte) (l : AllowList)
    (hparse : (parceMetaPackage c Minute).err = none)
    (hk : (parceMetaPackage c Minute).pkey = some k)
    (htk : tk = none ∨ tk = some k) :
    (k ∉ l → handshakeErr c tk (some l) sec dm sid = some (some
        (Err.IvalidPeerPublicKey "Key received from the peer is not in the allow list")))
      ∧ handshakeErr c tk (some []) sec dm sid = some (some
        (Err.IvalidPeerPublicKey "Key received from the peer is not in the allow list"))
      ∧ (handshakeErr c tk none sec dm sid).map
          (fun e => e.map Err.isIvalidPeerPublicKey) ≠ some (some true) := by
  have htk1 : (tk.isSome && bytesDiffer tk (some k)) = false := by
    rcases htk with h | h <;> subst h <;> simp [bytesDiffer]
  have hrej : ∀ l1 : AllowList, k ∉ l1 →
      handshakeErr c tk (some l1) sec dm sid = some (some
        (Err.IvalidPeerPublicKey "Key received from the peer is not in the allow list")) := by
    intro l1 hnot
    have hal : AllowList.IsAllow l1 k = false := by
      simp only [AllowList.IsAllow, List.any_eq_false, decide_eq_true_eq]
      intro x hx hxk
      exact hnot (hxk ▸ hx)
    rw [handshakeErr_eq, hparse, hk]
    simp only [htk1, Bool.false_eq_true, if_false, Option.isSome_some, Option.getD_some, hal,
      Bool.not_false, Bool.and_self, if_true]
  refine ⟨hrej l, hrej [] (List.not_mem_nil k), ?_⟩
  rw [handshakeErr_eq, hparse, hk]
  simp only [htk1, Bool.false_eq_true, if_false, Option.isSome_none, Bool.false_and]
  split_ifs <;> simp [Err.isIvalidPeerPublicKey]

/-- Witness of C9 on the stream of the mock transport, with an allow-list of one other
key. -/
theorem C9_allow_list_check_witness :
    (mockKey ∉ ([List.replicate 32 1] : AllowList) →
        handshakeErr mockConn none (some [List.replicate 32 1]) false none 0 = some (some
          (Err.IvalidPeerPublicKey "Key received from the peer is not in the allow list")))
      ∧ handshakeErr mockConn none (some []) false none 0 = some (some
          (Err.IvalidPeerPublicKey "Key received from the peer is not in the allow list"))
      ∧ (handshakeErr mockConn none none false none 0).map
          (fun e => e.map Err.isIvalidPeerPublicKey) ≠ some (some true) :=
  C9_allow_list_check mockConn none false none 0 mockKey [List.replicate 32 1] (by decide)
    (by decide) (Or.inl rfl)

/-- For the wrapper that `ConnToYggConn` returns: when its handshake ended with the error `e`
stored, every call of every sequence of `Read`, `Write` and `Close` calls returns, and
returns `e` as its error, whatever the stream answers; `e` is still the stored error after
the calls. -/
theorem failed_handshake_error_is_returned (c : Conn) (tk : Option (List Byte))
    (al : Option AllowList) (sec : Bool) (dm : Option DeduplicationManager) (sid : Nat)
    (e : Err) (m : DeduplicationManager) (ops : List Op)
    (hfail : handshakeErr c tk al sec dm sid = some (some e)) :
    (wrapped c tk al sec dm sid).bind
        (fun y => (y.run m ops).map (fun r => (r.1, r.2.err)))
      = some (ops.map (fun _ => some e), some e) := by
  obtain ⟨y, m1, ev, hc, hcases⟩ := handshake_cases c tk al sec dm sid
  have hw : wrapped c tk al sec dm sid = some y := by simp [wrapped, hc]
  have hy : y.err = some e := by simpa [handshakeErr, hw] using hfail
  rw [hw, Option.some_bind]
  rcases hcases with ⟨e1, hy1, -⟩ | ⟨cf, hy1, -⟩
  · subst hy1
    exact YggConn.run_failed e ops _ m hy rfl rfl rfl
  · subst hy1
    simp [published, newYggConn] at hy

/-- C10, the code at the failing input: a connection comes in on a listener and its peer
announces version `(1, 5)`. The handshake that `Accept` starts fails with
`UnknownProtoVersionError` and stores it in the struct the goroutine works on; the wrapper
`ConnToYggConn` returns for the same stream returns that error from `Read`, `Write` and
`Close`. The connection `Accept` returns is a copy whose `err` is nil: its `Read` and its
`Write` return the error of the closed stream and its `Close` returns nil. -/
theorem C10_accepted_copy_loses_handshake_error :
    handshakeErr wrongVerConn none none false none 0
        = some (some (Err.UnknownProtoVersionError ⟨0, 4⟩ ⟨1, 5⟩))
      ∧ (wrapped wrongVerConn none none false none 0).bind
          (fun y => (y.run ⟨true, []⟩ [Op.read 4, Op.write [1], Op.close]).map (fun q => q.1))
        = some [some (Err.UnknownProtoVersionError ⟨0, 4⟩ ⟨1, 5⟩),
            some (Err.UnknownProtoVersionError ⟨0, 4⟩ ⟨1, 5⟩),
            some (Err.UnknownProtoVersionError ⟨0, 4⟩ ⟨1, 5⟩)]
      ∧ (wrongVerListener.Accept ⟨true, []⟩ 0).bind
          (fun r => r.1.1.bind (fun y =>
            (y.run ⟨true, []⟩ [Op.read 4, Op.write [1], Op.close]).map (fun q => (y.err, q.1))))
        = some (none, [some Err.ErrClosedPipe, some Err.ErrClosedPipe, none]) := by
  decide

/-! ## The deduplication manager -/

/-- Taking the slot of `key` does not give an entry to another key that had none. -/
theorem DeduplicationManager.lookup_install_ne (m : DeduplicationManager)
    (key key1 : List Byte) (l s : Nat) (hne : key1 ≠ key) (h : m.lookup key1 = none) :
    (m.install key l s).lookup key1 = none := by
  simp only [DeduplicationManager.lookup, List.find?_eq_none, decide_eq_true_eq] at h
  simp only [DeduplicationManager.lookup, DeduplicationManager.install, List.find?_eq_none,
    decide_eq_true_eq, List.mem_cons, List.mem_filter]
  rintro e (rfl | ⟨he, -⟩)
  · exact fun h1 => hne h1.symm
  · exact h e he

/-- A `Check` for a key without incumbent enters the newcomer, returns its handle and invokes
no callback. -/
theorem DeduplicationManager.Check_fresh (m : DeduplicationManager) (key : List Byte)
    (l s : Nat) (h : m.lookup key = none) :
    m.Check key l s = (some ⟨key, s⟩, m.install key l s, []) := by
  simp [DeduplicationManager.Check, h]

/-- A sequence of `Check` calls on pairwise distinct keys without incumbent returns a handle
for each and invokes no callback. -/
theorem DeduplicationManager.Checks_fresh (qs : List (List Byte × Nat × Nat)) :
    ∀ m : DeduplicationManager, (qs.map (fun q => q.1)).Nodup →
      (∀ q ∈ qs, m.lookup q.1 = none) →
      (m.Checks qs).1 = qs.map (fun q => some ⟨q.1, q.2.2⟩) ∧ (m.Checks qs).2.2 = [] := by
  induction qs with
  | nil => intro m _ _; exact ⟨rfl, rfl⟩
  | cons q qs ih =>
    intro m hnd hfresh
    have hq : m.lookup q.1 = none := hfresh q (List.mem_cons_self _ _)
    rw [List.map_cons, List.nodup_cons] at hnd
    have hrest : ∀ q1 ∈ qs, (m.install q.1 q.2.1 q.2.2).lookup q1.1 = none := by
      intro q1 hq1
      refine DeduplicationManager.lookup_install_ne m q.1 q1.1 _ _ ?_
        (hfresh q1 (List.mem_cons_of_mem _ hq1))
      intro heq
      exact hnd.1 (heq ▸ List.mem_map_of_mem (fun q => q.1) hq1)
    obtain ⟨h1, h2⟩ := ih (m.install q.1 q.2.1 q.2.2) hnd.2 hrest
    simp only [DeduplicationManager.Checks, DeduplicationManager.Check_fresh m _ _ _ hq, h1, h2,
      List.map_cons, List.append_nil, and_self]

/-! ## The claims on the deduplication manager -/

/-- C12: for every manager and every key without incumbent entry, `Check` returns a non-nil
handle and invokes no eviction callback; and a sequence of `Check` calls on pairwise
distinct keys without incumbent, at any secure levels, returns a non-nil handle for each and
invokes no callback. -/
theorem C12_check_without_incumbent (m : DeduplicationManager) (key : List Byte)
    (secure_level session : Nat) (qs : List (List Byte × Nat × Nat))
    (hkey : m.lookup key = none)
    (hdistinct : (qs.map (fun q => q.1)).Nodup)
    (hfresh : ∀ q ∈ qs, m.lookup q.1 = none) :
    ((m.Check key secure_level session).1.isSome = true
        ∧ (m.Check key secure_level session).2.2 = [])
      ∧ ((m.Checks qs).1.all (fun h => h.isSome) = true
        ∧ (m.Checks qs).1.length = qs.length
        ∧ (m.Checks qs).2.2 = []) := by
  refine ⟨by simp [DeduplicationManager.Check_fresh m key _ _ hkey], ?_⟩
  obtain ⟨h1, h2⟩ := DeduplicationManager.Checks_fresh qs m hdistinct hfresh
  refine ⟨?_, by simp [h1], h2⟩
  rw [h1, List.all_eq_true]
  intro x hx
  obtain ⟨q, -, rfl⟩ := List.mem_map.mp hx
  rfl

/-- Witness of C12 on a strict manager without entry, with the key of the mock transport
and with three keys of different lengths at the secure levels 0, 1 and 0. -/
theorem C12_check_without_incumbent_witness :
    (((⟨true, []⟩ : DeduplicationManager).Check mockKey 0 1).1.isSome = true
        ∧ ((⟨true, []⟩ : DeduplicationManager).Check mockKey 0 1).2.2 = [])
      ∧ (((⟨true, []⟩ : DeduplicationManager).Checks
            [([], 0, 1), ([0], 1, 2), ([0, 0], 0, 3)]).1.all (fun h => h.isSome) = true
        ∧ ((⟨true, []⟩ : DeduplicationManager).Checks
            [([], 0, 1), ([0], 1, 2), ([0, 0], 0, 3)]).1.length
          = [(([] : List Byte), 0, 1), ([0], 1, 2), ([0, 0], 0, 3)].length
        ∧ ((⟨true, []⟩ : DeduplicationManager).Checks
            [([], 0, 1), ([0], 1, 2), ([0, 0], 0, 3)]).2.2 = []) :=
  C12_check_without_incumbent ⟨true, []⟩ mockKey 0 1 [([], 0, 1), ([0], 1, 2), ([0, 0], 0, 3)]
    (by decide) (by decide) (by decide)

/-- The wrapper a handshake without error leaves over an open stream of at least 38 bytes:
no error stored, the close flag false in its channel, the preamble in the channel of buffered
bytes, the stream open. -/
theorem ready_wrapper (c : Conn) (tk : Option (List Byte)) (al : Option AllowList)
    (sec : Bool) (dm : Option DeduplicationManager) (sid : Nat)
    (hopen : c.closed = false) (hlen : 38 ≤ c.content.length)
    (hok : handshakeErr c tk al sec dm sid = some none) :
    ∃ y, wrapped c tk al sec dm sid = some y ∧ y.err = none ∧ y.isClosed = some false
      ∧ y.extraReadBuffChn = some (some (c.content.take 38))
      ∧ y.innerConn.closed = false := by
  obtain ⟨y, m1, ev, hc, hcases⟩ := handshake_cases c tk al sec dm sid
  have hw : wrapped c tk al sec dm sid = some y := by simp [wrapped, hc]
  have hy : y.err = none := by simpa [handshakeErr, hw] using hok
  obtain ⟨hb, -, hcl, -, -⟩ := handshake_ready c tk al sec dm sid y m1 ev hopen hlen hc hy
  refine ⟨y, hw, hy, ?_, hb, hcl⟩
  rcases hcases with ⟨e, hy1, -⟩ | ⟨cf, hy1, -⟩
  · subst hy1
    simp [YggConn.failed] at hy
  · subst hy1
    rfl

/-- The eviction callback on a wrapper that stores no error: the error
`ConnClosedByDeduplicatorError` is stored and the stream is closed; the channel of buffered
bytes is left as it is. -/
theorem YggConn.on_evict_ready (y : YggConn) (m : DeduplicationManager) (b : Bool)
    (he : y.err = none) (hc : y.isClosed = some b) :
    y.on_evict m = some ({ y with innerConn := (y.innerConn.Close).2
                                  err := some Err.ConnClosedByDeduplicatorError
                                  isClosed := some true }, m, []) := by
  simp [YggConn.on_evict, YggConn.setErr, YggConn.Close, he, hc]

/-! ## The claims on eviction -/

/-- C11, the claim as stated fails: two wrappers are built over streams of the mock
transport with the same peer key on one strict manager, the first with a transport that is
not secure, the second with a secure one. The handshake of the second invokes the eviction
callback of the first. The next `Read` of the evicted wrapper returns the first four bytes
of the preamble with a nil error, not `ConnClosedByDeduplicatorError`. -/
theorem C11_evicted_wrapper_reads_buffer :
    (ConnToYggConn (some mockConn) none none false (some ⟨true, []⟩) 1).bind (fun r1 =>
      r1.1.bind (fun y1 =>
        (ConnToYggConn (some mockConn) none none true r1.2.1 2).bind (fun r2 =>
          r2.2.1.bind (fun m2 =>
            (y1.on_evict m2).bind (fun e1 =>
              (e1.1.Read 4).map (fun rd => (y1.err, r2.2.2, e1.1.err, rd.1, rd.2.1)))))))
      = some (none, [Event.evicted 1], some Err.ConnClosedByDeduplicatorError,
          [109, 101, 116, 97], none) := by
  decide

/-- C11, amended: for every wrapper that `ConnToYggConn` built, that stores no error (the
manager let it in) and whose handshake is over, at whatever point of its use, once its
eviction callback is invoked: `ConnClosedByDeduplicatorError` is stored and the stream is
closed; the next `Write` and the next `Close` return that error; the next `Read` returns it
when the buffer is nil, and returns buffered bytes with a nil error while the buffer is not
nil; the `Read` after the buffer is drained returns the error. And the wrapper that
`ConnToYggConn` returns when its handshake ended with `ConnClosedByDeduplicatorError`, as it
does when `Check` returns nil, returns that error on its next `Read`. -/
theorem C11_evicted_wrapper (y : YggConn) (m : DeduplicationManager) (b : Bool)
    (buf : Option (List Byte)) (n : Nat) (w : List Byte)
    (c : Conn) (tk : Option (List Byte)) (al : Option AllowList) (sec : Bool)
    (m2 : DeduplicationManager) (sid : Nat)
    (he : y.err = none) (hc : y.isClosed = some b)
    (hb : y.extraReadBuffChn = some buf) (hne : buf ≠ some [])
    (hnil : handshakeErr c tk al sec (some m2) sid
      = some (some Err.ConnClosedByDeduplicatorError)) :
    ((y.on_evict m).map (fun r => (r.1.err, r.1.innerConn.closed))
        = some (some Err.ConnClosedByDeduplicatorError, true)
      ∧ (y.on_evict m).map (fun r => (r.1.Write w).2.1)
        = some (some Err.ConnClosedByDeduplicatorError)
      ∧ (y.on_evict m).bind (fun r => (r.1.Close m).map (fun q => q.1))
        = some (some Err.ConnClosedByDeduplicatorError)
      ∧ (y.on_evict m).bind (fun r => (r.1.Read n).map (fun q => (q.1, q.2.1)))
        = some (match buf with
                | none => ([], some Err.ConnClosedByDeduplicatorError)
                | some bs => (bs.take n, none))
      ∧ (y.on_evict m).bind
          (fun r => (r.1.Reads [(buf.getD []).length, n]).map (fun q => q.1.drop 1))
        = some [([], some Err.ConnClosedByDeduplicatorError)])
      ∧ (wrapped c tk al sec (some m2) sid).bind
          (fun y2 => (y2.Read n).map (fun q => (q.1, q.2.1)))
        = some ([], some Err.ConnClosedByDeduplicatorError) := by
  have hev := YggConn.on_evict_ready y m b he hc
  refine ⟨?_, ?_⟩
  · simp only [hev, Option.map_some', Option.some_bind]
    refine ⟨rfl, ?_, ?_, ?_, ?_⟩
    · simp [YggConn.Write]
    · simp [YggConn.Close]
    · cases buf with
      | none => simp [YggConn.Read, hb, Conn.Read, Conn.Close]
      | some bs =>
        simp only [YggConn.Read, hb, Option.map_some']
        have ht : bs.take (min n bs.length) = bs.take n := by
          rw [← List.take_take, List.take_length]
        rw [ht]
    · cases buf with
      | none =>
        simp [YggConn.Reads, YggConn.Read, hb, Conn.Read, Conn.Close]
      | some bs =>
        have hbs : bs ≠ [] := fun h => hne (by rw [h])
        have hpos : 0 < bs.length := List.length_pos.mpr hbs
        simp [YggConn.Reads, YggConn.Read, hb, Conn.Read, Conn.Close]
  · obtain ⟨y2, m1, ev, hc2, hcases⟩ := handshake_cases c tk al sec (some m2) sid
    have hw2 : wrapped c tk al sec (some m2) sid = some y2 := by simp [wrapped, hc2]
    have hy2 : y2.err = some Err.ConnClosedByDeduplicatorError := by
      simpa [handshakeErr, hw2] using hnil
    rw [hw2, Option.some_bind]
    rcases hcases with ⟨e1, hy1, -⟩ | ⟨cf, hy1, -⟩
    · subst hy1
      simp only [YggConn.failed] at hy2
      simp [YggConn.failed, YggConn.Read, Conn.Read, Conn.Close, hy2]
    · subst hy1
      simp [published, newYggConn] at hy2

/-- Witness of C11 (amended): the wrapper built over the stream of the mock transport and
let in by a strict manager without entry, evicted while it still holds the preamble; and the
wrapper built over the same stream with a manager that holds an entry of that key at the
same secure level, for which `Check` returns nil. -/
theorem C11_evicted_wrapper_witness :
    ((admittedConn.on_evict ⟨true, []⟩).map (fun r => (r.1.err, r.1.innerConn.closed))
        = some (some Err.ConnClosedByDeduplicatorError, true)
      ∧ (admittedConn.on_evict ⟨true, []⟩).map (fun r => (r.1.Write [1]).2.1)
        = some (some Err.ConnClosedByDeduplicatorError)
      ∧ (admittedConn.on_evict ⟨true, []⟩).bind
          (fun r => (r.1.Close ⟨true, []⟩).map (fun q => q.1))
        = some (some Err.ConnClosedByDeduplicatorError)
      ∧ (admittedConn.on_evict ⟨true, []⟩).bind
          (fun r => (r.1.Read 4).map (fun q => (q.1, q.2.1)))
        = some (match some (mockHeader ++ mockKey) with
                | none => ([], some Err.ConnClosedByDeduplicatorError)
                | some bs => (bs.take 4, none))
      ∧ (admittedConn.on_evict ⟨true, []⟩).bind
          (fun r => (r.1.Reads [((some (mockHeader ++ mockKey)).getD []).length, 4]).map
            (fun q => q.1.drop 1))
        = some [([], some Err.ConnClosedByDeduplicatorError)])
      ∧ (wrapped mockConn none none false (some ⟨true, [⟨mockKey, 0, 0⟩]⟩) 1).bind
          (fun y2 => (y2.Read 4).map (fun q => (q.1, q.2.1)))
        = some ([], some Err.ConnClosedByDeduplicatorError) :=
  C11_evicted_wrapper admittedConn ⟨true, []⟩ false (some (mockHeader ++ mockKey)) 4 [1]
    mockConn none none false ⟨true, [⟨mockKey, 0, 0⟩]⟩ 1 (by decide) (by decide) (by decide)
    (by decide) (by decide)

/-! ## The deadline of the handshake -/

/-- A read of the raw stream does not set the clock back. -/
theorem Conn.Read_now (c : Conn) (n : Nat) (r : List Byte × Option Err × Conn)
    (h : c.Read n = some r) : c.now ≤ r.2.2.now := by
  simp only [Conn.Read] at h
  split_ifs at h with hcl
  · cases h; exact Nat.le_refl _
  · split at h
    · split at h
      · exact absurd h (by simp)
      · cases h; exact le_max_left _ _
    · split_ifs at h <;> cases h <;> exact le_max_left _ _

/-- The loop of `io.ReadFull` on the raw stream does not set the clock back. -/
theorem Conn.readLoop_now (fuel : Nat) :
    ∀ (c : Conn) (size : Nat) (acc : List Byte) (err : Option Err)
      (r : List Byte × Option Err × Conn),
      ReadFullLoop Conn.Read fuel c size acc err = some r → c.now ≤ r.2.2.now := by
  induction fuel with
  | zero =>
    intro c size acc err r h
    simp only [ReadFullLoop] at h
    split_ifs at h
    cases h
    exact Nat.le_refl _
  | succ f ih =>
    intro c size acc err r h
    simp only [ReadFullLoop] at h
    split_ifs at h
    · cases hr : Conn.Read c (size - acc.length) with
      | none => simp [hr] at h
      | some q =>
        obtain ⟨d, e, c1⟩ := q
        simp only [hr] at h
        exact Nat.le_trans (Conn.Read_now c _ _ hr) (ih c1 size (acc ++ d) e r h)
    · cases h
      exact Nat.le_refl _

/-- When the bytes that can be had before time `t` do not fill the destination, and the
stream is open and does not fail before `t`, the loop of `io.ReadFull` does not end before
`t`: it blocks for ever, or the clock shows `t` or later when it returns. -/
theorem Conn.readLoop_late (t : Nat) (chunks : List Chunk) :
    ∀ (c : Conn) (fuel size : Nat) (acc : List Byte)
      (r : List Byte × Option Err × Conn),
      c.incoming = chunks → c.closed = false →
      (∀ te e, c.atEnd = some (te, e) → t ≤ te) →
      acc.length + (c.deliveredBefore t).length < size →
      ReadFullLoop Conn.Read fuel c size acc none = some r → t ≤ r.2.2.now := by
  induction chunks with
  | nil =>
    intro c fuel size acc r hin hcl hend hshort h
    have hlt : acc.length < size := by omega
    cases fuel with
    | zero => simp [ReadFullLoop, hlt] at h
    | succ f =>
      rw [ReadFullLoop_step _ _ _ _ _ hlt] at h
      cases hat : c.atEnd with
      | none => simp [Conn.Read, hcl, hin, hat] at h
      | some te =>
        obtain ⟨te, e⟩ := te
        simp only [Conn.Read, hcl, hin, hat, Bool.false_eq_true, if_false] at h
        have hmono := Conn.readLoop_now f _ _ _ _ r h
        have := hend te e hat
        simp only at hmono
        exact Nat.le_trans this (Nat.le_trans (le_max_right _ _) hmono)
  | cons ch rest ih =>
    intro c fuel size acc r hin hcl hend hshort h
    have hlt : acc.length < size := by omega
    cases fuel with
    | zero => simp [ReadFullLoop, hlt] at h
    | succ f =>
      rw [ReadFullLoop_step _ _ _ _ _ hlt] at h
      by_cases harr : ch.arrival < t
      · have hdel : c.deliveredBefore t
            = ch.data ++ Conn.deliveredBefore { c with incoming := rest,
                                                       now := max c.now ch.arrival } t := by
          simp [Conn.deliveredBefore, hin, List.takeWhile_cons, harr]
        rw [hdel, List.length_append] at hshort
        have hfit : ch.data.length ≤ size - acc.length := by omega
        have hread : Conn.Read c (size - acc.length)
            = some (ch.data, none, { c with incoming := rest, now := max c.now ch.arrival }) := by
          simp [Conn.Read, hcl, hin, hfit]
        rw [hread] at h
        exact ih { c with incoming := rest, now := max c.now ch.arrival } f size
          (acc ++ ch.data) r rfl hcl hend (by rw [List.length_append]; omega) h
      · have hge : t ≤ ch.arrival := Nat.le_of_not_lt harr
        cases hr : Conn.Read c (size - acc.length) with
        | none => simp [hr] at h
        | some q =>
          obtain ⟨d, e, c1⟩ := q
          simp only [hr] at h
          have hmono := Conn.readLoop_now f _ _ _ _ r h
          have hc1 : t ≤ c1.now := by
            simp only [Conn.Read, hcl, hin, Bool.false_eq_true, if_false] at hr
            split_ifs at hr <;> cases hr <;> exact Nat.le_trans hge (le_max_right _ _)
          exact Nat.le_trans hc1 hmono

/-- The stream the parser leaves is the one `io.ReadFull` left. -/
theorem internalParceMetaPackage_conn (c : Conn) (r : ParseResult)
    (h : internalParceMetaPackage c = some r) :
    ∃ d e, c.ReadFull 38 = some (d, e, r.conn) := by
  simp only [internalParceMetaPackage, preamble_size] at h
  cases hr : c.ReadFull 38 with
  | none => simp [hr] at h
  | some q =>
    obtain ⟨d, e, c1⟩ := q
    simp only [hr] at h
    refine ⟨d, e, ?_⟩
    split_ifs at h <;> cases h <;> rfl

/-- A peer that does not deliver 38 bytes before the deadline, on a stream that is open and
does not fail before the deadline, makes `parceMetaPackage` return `ConnTimeoutError`. -/
theorem parceMetaPackage_late (c : Conn) (timeout : Nat) (hopen : c.closed = false)
    (hend : ∀ te e, c.atEnd = some (te, e) → c.now + timeout ≤ te)
    (hshort : (c.deliveredBefore (c.now + timeout)).length < 38) :
    (parceMetaPackage c timeout).err = some Err.ConnTimeoutError := by
  simp only [parceMetaPackage]
  cases hp : internalParceMetaPackage c with
  | none => rfl
  | some r =>
    obtain ⟨d, e, hrf⟩ := internalParceMetaPackage_conn c r hp
    have := Conn.readLoop_late (c.now + timeout) c.incoming c _ 38 [] _ rfl hopen hend
      (by simpa using hshort) hrf
    simp only at this
    have hnot : ¬ r.conn.now < c.now + timeout := Nat.not_lt.mpr this
    simp only [hnot, if_false]

/-- The bytes that can be had before time `t` are among the pending bytes. -/
theorem Conn.deliveredBefore_length_le (c : Conn) (t : Nat) :
    (c.deliveredBefore t).length ≤ c.content.length := by
  have h := List.takeWhile_append_dropWhile (fun ch : Chunk => decide (ch.arrival < t))
    c.incoming
  have h2 : c.content = c.deliveredBefore t
      ++ ((c.incoming.dropWhile (fun ch => decide (ch.arrival < t))).map Chunk.data).flatten := by
    simp only [Conn.content, Conn.deliveredBefore]
    rw [← List.flatten_append, ← List.map_append, h]
  rw [h2, List.length_append]
  exact Nat.le_add_right _ _

/-- When the bytes that can be had before time `t` fill the destination and the clock shows
less than `t`, the loop of `io.ReadFull` on an open stream returns before `t`. -/
theorem Conn.readLoop_early (t : Nat) (chunks : List Chunk) :
    ∀ (c : Conn) (fuel size : Nat) (acc : List Byte)
      (r : List Byte × Option Err × Conn),
      c.incoming = chunks → c.closed = false → c.now < t →
      size - acc.length ≤ (c.deliveredBefore t).length →
      ReadFullLoop Conn.Read fuel c size acc none = some r → r.2.2.now < t := by
  induction chunks with
  | nil =>
    intro c fuel size acc r hin hcl hnow hneed h
    have hsz : size ≤ acc.length := by
      simp only [Conn.deliveredBefore, hin, List.takeWhile_nil, List.map_nil,
        List.flatten_nil, List.length_nil] at hneed
      omega
    rw [ReadFullLoop_done _ _ _ _ _ _ hsz] at h
    cases h
    exact hnow
  | cons ch rest ih =>
    intro c fuel size acc r hin hcl hnow hneed h
    by_cases hsz : size ≤ acc.length
    · rw [ReadFullLoop_done _ _ _ _ _ _ hsz] at h
      cases h
      exact hnow
    · have hlt : acc.length < size := Nat.lt_of_not_le hsz
      have harr : ch.arrival < t := by
        by_contra hnot
        simp only [Conn.deliveredBefore, hin, List.takeWhile_cons, hnot, decide_False,
          Bool.false_eq_true, if_false, List.map_nil, List.flatten_nil,
          List.length_nil] at hneed
        omega
      have hmax : max c.now ch.arrival < t := max_lt hnow harr
      cases fuel with
      | zero => simp [ReadFullLoop, hlt] at h
      | succ f =>
        rw [ReadFullLoop_step _ _ _ _ _ hlt] at h
        by_cases hfit : ch.data.length ≤ size - acc.length
        · have hread : Conn.Read c (size - acc.length)
              = some (ch.data, none,
                  { c with incoming := rest, now := max c.now ch.arrival }) := by
            simp [Conn.Read, hcl, hin, hfit]
          rw [hread] at h
          have hdel : c.deliveredBefore t
              = ch.data ++ Conn.deliveredBefore { c with incoming := rest,
                                                         now := max c.now ch.arrival } t := by
            simp [Conn.deliveredBefore, hin, List.takeWhile_cons, harr]
          rw [hdel, List.length_append] at hneed
          exact ih { c with incoming := rest, now := max c.now ch.arrival } f size
            (acc ++ ch.data) r rfl hcl hmax (by rw [List.length_append]; omega) h
        · have hread : Conn.Read c (size - acc.length)
              = some (ch.data.take (size - acc.length), none,
                  { c with
                    incoming := { ch with data := ch.data.drop (size - acc.length) } :: rest,
                    now := max c.now ch.arrival }) := by
            simp [Conn.Read, hcl, hin, hfit]
          rw [hread] at h
          simp only at h
          have hfull : size ≤ (acc ++ ch.data.take (size - acc.length)).length := by
            simp only [List.length_append, List.length_take]; omega
          rw [ReadFullLoop_done _ _ _ _ _ _ hfull] at h
          cases h
          exact hmax

/-- A peer that delivers 38 bytes before the deadline, on an open stream, has the result of
the parser taken by `parceMetaPackage`, and that result is no `ConnTimeoutError`. -/
theorem parceMetaPackage_early (c : Conn) (timeout : Nat) (hopen : c.closed = false)
    (hpos : 0 < timeout)
    (hin : 38 ≤ (c.deliveredBefore (c.now + timeout)).length) :
    some (parceMetaPackage c timeout) = internalParceMetaPackage c
      ∧ (parceMetaPackage c timeout).err ≠ some Err.ConnTimeoutError := by
  have hlen : 38 ≤ c.content.length :=
    Nat.le_trans hin (Conn.deliveredBefore_length_le c _)
  obtain ⟨c1, -, -, -, -, -, -, -, -, hparse⟩ := internalParceMetaPackage_enough c hopen hlen
  obtain ⟨r, hr⟩ : ∃ r, internalParceMetaPackage c = some r := ⟨_, hparse⟩
  obtain ⟨d, e, hrf⟩ := internalParceMetaPackage_conn c r hr
  have hearly := Conn.readLoop_early (c.now + timeout) c.incoming c _ 38 [] _ rfl hopen
    (by omega) (by simpa using hin) hrf
  simp only at hearly
  have heq : parceMetaPackage c timeout = r := parceMetaPackage_in_time c timeout r hr hearly
  refine ⟨by rw [heq, hr], ?_⟩
  rw [heq]
  rw [hparse] at hr
  have hr1 := (Option.some.inj hr).symm
  simp only at hr1
  subst hr1
  split_ifs <;> simp

/-- C14, the claim as stated fails: the peer of `lateConn` delivers nothing in the first 30
seconds (its valid preamble arrives after 45), and the handshake ends without error, not
with `ConnTimeoutError`. -/
theorem C14_preamble_after_45_seconds_is_accepted :
    lateConn.closed = false ∧ lateConn.atEnd = none
      ∧ (lateConn.deliveredBefore (lateConn.now + 30 * Second)).length < 38
      ∧ handshakeErr lateConn none none false none 0 = some none := by
  decide

/-- C14, amended: the deadline of the handshake is exactly one minute, 60 000 000 000
nanoseconds. A peer that has not delivered its 38 bytes when 60 seconds have passed, on a
stream that is open and does not fail earlier, makes the handshake end with
`ConnTimeoutError`; a peer that delivers its 38 bytes before 60 seconds have passed, on an
open stream, does not: the handshake goes on with the result of the parser and does not end
with `ConnTimeoutError`. -/
theorem C14_handshake_deadline_is_one_minute (slow fast : Conn) (tk : Option (List Byte))
    (al : Option AllowList) (sec : Bool) (dm : Option DeduplicationManager) (sid : Nat)
    (hopen1 : slow.closed = false)
    (hend1 : ∀ te e, slow.atEnd = some (te, e) → slow.now + 60000000000 ≤ te)
    (hshort : (slow.deliveredBefore (slow.now + 60000000000)).length < 38)
    (hopen2 : fast.closed = false)
    (hin : 38 ≤ (fast.deliveredBefore (fast.now + 60000000000)).length) :
    handshakeErr slow tk al sec dm sid = some (some Err.ConnTimeoutError)
      ∧ (handshakeErr fast tk al sec dm sid).map
          (fun e => decide (e = some Err.ConnTimeoutError)) = some false
      ∧ (wrapped fast tk al sec dm sid).map (fun y => (y.pVersion, y.otherPublicKey))
        = (internalParceMetaPackage fast).map (fun r => (some r.version, some r.pkey)) := by
  have hM : Minute = 60000000000 := rfl
  refine ⟨?_, ?_, ?_⟩
  · rw [handshakeErr_eq, parceMetaPackage_late slow Minute hopen1 (by rw [hM]; exact hend1)
      (by rw [hM]; exact hshort)]
  · obtain ⟨-, hnot⟩ := parceMetaPackage_early fast Minute hopen2 (by decide)
      (by rw [hM]; exact hin)
    rw [handshakeErr_eq]
    cases hre : (parceMetaPackage fast Minute).err with
    | some e =>
      have : e ≠ Err.ConnTimeoutError := fun h => hnot (by rw [hre, h])
      simp [this]
    | none =>
      simp only [Option.map_some', Option.some.injEq, decide_eq_false_iff_not]
      split_ifs <;> simp
  · obtain ⟨heq, -⟩ := parceMetaPackage_early fast Minute hopen2 (by decide)
      (by rw [hM]; exact hin)
    obtain ⟨y, m1, ev, hc, hcases⟩ := handshake_cases fast tk al sec dm sid
    have hw : wrapped fast tk al sec dm sid = some y := by simp [wrapped, hc]
    rw [hw, ← heq]
    rcases hcases with ⟨e, hy, -⟩ | ⟨cf, hy, -⟩ <;>
      · subst hy
        simp [YggConn.failed, published]

/-- Witness of C14 (amended): a peer whose valid preamble arrives after 61 seconds, and a
peer whose valid preamble arrives after 45 seconds. -/
theorem C14_handshake_deadline_is_one_minute_witness :
    handshakeErr tooLateConn none none false none 0 = some (some Err.ConnTimeoutError)
      ∧ (handshakeErr lateConn none none false none 0).map
          (fun e => decide (e = some Err.ConnTimeoutError)) = some false
      ∧ (wrapped lateConn none none false none 0).map (fun y => (y.pVersion, y.otherPublicKey))
        = (internalParceMetaPackage lateConn).map (fun r => (some r.version, some r.pkey)) :=
  C14_handshake_deadline_is_one_minute tooLateConn lateConn none none false none 0
    (by decide) (fun te e h => by simp [tooLateConn, Conn.ofChunks] at h) (by decide)
    (by decide) (by decide)

/-! ## The claims on the dialer, the getters and the order of the checks -/

/-- The SOCKS5 branch begins with the resolution of the host of the proxy and never makes
the direct dial. -/
theorem dialSocks5_calls (env : NetEnv) (d : TcpDialer) (uri p : URL) :
    (dialSocks5 env d uri p).calls.head? = some (NetCall.resolve p.Host)
      ∧ (dialSocks5 env d uri p).calls.any NetCall.isDirectDial = false := by
  simp only [dialSocks5]
  split
  · exact ⟨rfl, rfl⟩
  · split
    · exact ⟨rfl, rfl⟩
    · split
      · exact ⟨rfl, rfl⟩
      · split
        · exact ⟨rfl, rfl⟩
        · split
          · exact ⟨rfl, rfl⟩
          · split <;> exact ⟨rfl, rfl⟩

/-- The direct branch begins with the resolution of the host of the target and never calls
the SOCKS5 proxy. -/
theorem dialDirect_calls (env : NetEnv) (d : TcpDialer) (uri : URL) :
    (dialDirect env d uri).calls.head? = some (NetCall.resolve uri.Host)
      ∧ (dialDirect env d uri).calls.any NetCall.isSocks = false := by
  simp only [dialDirect]
  split
  · exact ⟨rfl, rfl⟩
  · split
    · exact ⟨rfl, rfl⟩
    · split <;> exact ⟨rfl, rfl⟩

/-- C15: for every target URI and optional proxy URI, `DialContext` runs the SOCKS5 branch
when the proxy URI is non-nil and its scheme is `socks`, `socks5` or `socks5h`, and the
direct branch in every other case. The SOCKS5 branch starts by resolving the host of the
proxy and never dials directly; the direct branch starts by resolving the host of the target
and never calls the proxy. In the direct branch a rejection of the resolved address by the
address check is returned as the error, with a nil connection, after the resolution and the
check only: no connection is opened. -/
theorem C15_dial_branch_selection (env : NetEnv) (d : TcpDialer) (uri : URL)
    (proxy_uri : Option URL) (dst : TCPAddr) (e : Err) :
    d.DialContext env uri proxy_uri =
        (match proxy_uri with
         | some p =>
           if p.Scheme = "socks" ∨ p.Scheme = "socks5" ∨ p.Scheme = "socks5h" then
             dialSocks5 env d uri p
           else dialDirect env d uri
         | none => dialDirect env d uri)
      ∧ (d.DialContext env uri proxy_uri).calls.head? =
          (match proxy_uri with
           | some p =>
             if p.Scheme = "socks" ∨ p.Scheme = "socks5" ∨ p.Scheme = "socks5h" then
               some (NetCall.resolve p.Host)
             else some (NetCall.resolve uri.Host)
           | none => some (NetCall.resolve uri.Host))
      ∧ (d.DialContext env uri proxy_uri).calls.any
            (match proxy_uri with
             | some p =>
               if p.Scheme = "socks" ∨ p.Scheme = "socks5" ∨ p.Scheme = "socks5h" then
                 NetCall.isDirectDial
               else NetCall.isSocks
             | none => NetCall.isSocks) = false
      ∧ (use_proxy proxy_uri = false → env.ResolveTCPAddr uri.Host = Except.ok dst →
          env.CheckAddr dst.IP = some e →
          d.DialContext env uri proxy_uri
              = ⟨none, some e, [NetCall.resolve uri.Host, NetCall.checkAddr dst.IP]⟩
            ∧ (d.DialContext env uri proxy_uri).calls.any NetCall.isDial = false) := by
  have hsel : d.DialContext env uri proxy_uri =
      (match proxy_uri with
       | some p =>
         if p.Scheme = "socks" ∨ p.Scheme = "socks5" ∨ p.Scheme = "socks5h" then
           dialSocks5 env d uri p
         else dialDirect env d uri
       | none => dialDirect env d uri) := by
    cases proxy_uri with
    | none => simp [TcpDialer.DialContext, use_proxy]
    | some p =>
      simp only [TcpDialer.DialContext, use_proxy, Bool.or_eq_true, beq_iff_eq]
      by_cases h : (p.Scheme = "socks" ∨ p.Scheme = "socks5") ∨ p.Scheme = "socks5h"
      · rw [if_pos h, if_pos (or_assoc.mp h)]
      · rw [if_neg h, if_neg (fun h1 => h (or_assoc.mpr h1))]
  refine ⟨hsel, ?_, ?_, ?_⟩
  · rw [hsel]
    cases proxy_uri with
    | none => exact (dialDirect_calls env d uri).1
    | some p =>
      simp only []
      split_ifs
      · exact (dialSocks5_calls env d uri p).1
      · exact (dialDirect_calls env d uri).1
  · rw [hsel]
    cases proxy_uri with
    | none => exact (dialDirect_calls env d uri).2
    | some p =>
      simp only []
      split_ifs
      · exact (dialSocks5_calls env d uri p).2
      · exact (dialDirect_calls env d uri).2
  · intro hno hres hchk
    have hdirect : d.DialContext env uri proxy_uri = dialDirect env d uri := by
      simp only [TcpDialer.DialContext, hno, Bool.false_eq_true, if_false]
    rw [hdirect]
    have hrej : dialDirect env d uri
        = ⟨none, some e, [NetCall.resolve uri.Host, NetCall.checkAddr dst.IP]⟩ := by
      simp only [dialDirect, hres, hchk]
    rw [hrej]
    exact ⟨rfl, rfl⟩

/-- Witness of C15: a proxy URI of scheme `socks5` in a world where every dial succeeds, and
a nil proxy URI and a proxy URI of scheme `http` in a world where every name resolves to the
loopback address, which the address check rejects. -/
theorem C15_dial_branch_selection_witness :
    ((⟨1, 1⟩ : TcpDialer).DialContext openEnv ⟨"tcp", "h:1", none⟩
          (some ⟨"socks5", "p:1", none⟩)).calls.head? = some (NetCall.resolve "p:1")
      ∧ ((⟨1, 1⟩ : TcpDialer).DialContext openEnv ⟨"tcp", "h:1", none⟩
          (some ⟨"socks5", "p:1", none⟩)).calls.any NetCall.isDirectDial = false
      ∧ ((⟨1, 1⟩ : TcpDialer).DialContext loopbackEnv ⟨"tcp", "h:1", none⟩ none
            = ⟨none, some (Err.other 1),
                [NetCall.resolve "h:1", NetCall.checkAddr [127, 0, 0, 1]]⟩
          ∧ ((⟨1, 1⟩ : TcpDialer).DialContext loopbackEnv ⟨"tcp", "h:1", none⟩
              none).calls.any NetCall.isDial = false)
      ∧ ((⟨1, 1⟩ : TcpDialer).DialContext loopbackEnv ⟨"tcp", "h:1", none⟩
            (some ⟨"http", "p:1", none⟩)
            = ⟨none, some (Err.other 1),
                [NetCall.resolve "h:1", NetCall.checkAddr [127, 0, 0, 1]]⟩
          ∧ ((⟨1, 1⟩ : TcpDialer).DialContext loopbackEnv ⟨"tcp", "h:1", none⟩
              (some ⟨"http", "p:1", none⟩)).calls.any NetCall.isDial = false) :=
  ⟨(C15_dial_branch_selection openEnv ⟨1, 1⟩ ⟨"tcp", "h:1", none⟩
      (some ⟨"socks5", "p:1", none⟩) ⟨[], 0⟩ Err.EOF).2.1,
   (C15_dial_branch_selection openEnv ⟨1, 1⟩ ⟨"tcp", "h:1", none⟩
      (some ⟨"socks5", "p:1", none⟩) ⟨[], 0⟩ Err.EOF).2.2.1,
   (C15_dial_branch_selection loopbackEnv ⟨1, 1⟩ ⟨"tcp", "h:1", none⟩ none
      ⟨[127, 0, 0, 1], 80⟩ (Err.other 1)).2.2.2 rfl rfl rfl,
   (C15_dial_branch_selection loopbackEnv ⟨1, 1⟩ ⟨"tcp", "h:1", none⟩
      (some ⟨"http", "p:1", none⟩) ⟨[127, 0, 0, 1], 80⟩ (Err.other 1)).2.2.2 (by decide)
      rfl rfl⟩

/-- On a wrapper whose channel holds the version `v`, `GetVer` returns `(v, nil)` and leaves
the wrapper as it found it. -/
theorem YggConn.GetVers_published (v : ProtoVersion) (n : Nat) :
    ∀ y : YggConn, y.pVersion = some (some v) →
      y.GetVers n = some (List.replicate n (some v, none), y) := by
  induction n with
  | zero => intro y _; rfl
  | succ k ih =>
    intro y h
    have hg : y.GetVer = some ((some v, none), y) := by
      cases y
      simp only at h
      subst h
      simp [YggConn.GetVer]
    simp only [YggConn.GetVers, hg, ih y h, Option.map_some', List.replicate_succ]

/-- On a wrapper whose channel holds the key `k`, `GetPublicKey` returns `(k, nil)` and
leaves the wrapper as it found it. -/
theorem YggConn.GetPublicKeys_published (k : List Byte) (n : Nat) :
    ∀ y : YggConn, y.otherPublicKey = some (some k) →
      y.GetPublicKeys n = some (List.replicate n (some k, none), y) := by
  induction n with
  | zero => intro y _; rfl
  | succ j ih =>
    intro y h
    have hg : y.GetPublicKey = some ((some k, none), y) := by
      cases y
      simp only at h
      subst h
      simp [YggConn.GetPublicKey]
    simp only [YggConn.GetPublicKeys, hg, ih y h, Option.map_some', List.replicate_succ]

/-- C16: for every wrapper whose handshake published the version `v` and the peer key `k`,
`n` successive calls of `GetVer` all return `(v, nil)` and `n` successive calls of
`GetPublicKey` all return `(k, nil)`, for every `n`, and the calls leave the wrapper, its
two channels included, as they found it. -/
theorem C16_getters_repeat (c : Conn) (tk : Option (List Byte)) (al : Option AllowList)
    (sec : Bool) (dm : Option DeduplicationManager) (sid n : Nat)
    (v : ProtoVersion) (k : List Byte)
    (hv : (parceMetaPackage c Minute).version = some v)
    (hk : (parceMetaPackage c Minute).pkey = some k) :
    (wrapped c tk al sec dm sid).bind (fun y => (y.GetVers n).map
        (fun r => (r.1, r.2.pVersion, decide (r.2 = y))))
        = some (List.replicate n (some v, none), some (some v), true)
      ∧ (wrapped c tk al sec dm sid).bind (fun y => (y.GetPublicKeys n).map
        (fun r => (r.1, r.2.otherPublicKey, decide (r.2 = y))))
        = some (List.replicate n (some k, none), some (some k), true) := by
  obtain ⟨y, m1, ev, hc, hcases⟩ := handshake_cases c tk al sec dm sid
  have hw : wrapped c tk al sec dm sid = some y := by simp [wrapped, hc]
  have hpv : y.pVersion = some (some v) ∧ y.otherPublicKey = some (some k) := by
    rcases hcases with ⟨e, hy, -⟩ | ⟨cf, hy, -⟩ <;>
      · subst hy
        simp [YggConn.failed, published, hv, hk]
  simp [hw, YggConn.GetVers_published v n y hpv.1, YggConn.GetPublicKeys_published k n y hpv.2,
    hpv.1, hpv.2]

/-- Witness of C16 on the stream of the mock transport, with three calls of each getter. -/
theorem C16_getters_repeat_witness :
    (wrapped mockConn none none false none 0).bind (fun y => (y.GetVers 3).map
        (fun r => (r.1, r.2.pVersion, decide (r.2 = y))))
        = some (List.replicate 3 (some ⟨0, 4⟩, none), some (some ⟨0, 4⟩), true)
      ∧ (wrapped mockConn none none false none 0).bind (fun y => (y.GetPublicKeys 3).map
        (fun r => (r.1, r.2.otherPublicKey, decide (r.2 = y))))
        = some (List.replicate 3 (some mockKey, none), some (some mockKey), true) :=
  C16_getters_repeat mockConn none none false none 0 3 ⟨0, 4⟩ mockKey (by decide) (by decide)

/-- C17: in the handshake of every wrapper with a manager, when the parser returned an
error, or the transport key is set and differs from the key of the peer, or the allow-list
is set and lacks that key, the handshake ends with the error of the first of these checks
that fails, in the order parser, transport key, allow-list; `Check` is not reached: the
registry is left as it was, no callback is invoked, and the wrapper is the same whatever the
registry holds. -/
theorem C17_failed_check_skips_dedup (c : Conn) (tk : Option (List Byte))
    (al : Option AllowList) (sec : Bool) (m m1 : DeduplicationManager) (sid : Nat)
    (hfail : (parceMetaPackage c Minute).err ≠ none
      ∨ (tk.isSome && bytesDiffer tk (parceMetaPackage c Minute).pkey) = true
      ∨ (al.isSome && !(AllowList.IsAllow (al.getD [])
          ((parceMetaPackage c Minute).pkey.getD []))) = true) :
    (ConnToYggConn (some c) tk al sec (some m) sid).map (fun r => (r.2.1, r.2.2))
        = some (some m, [])
      ∧ handshakeErr c tk al sec (some m) sid = some
          (match (parceMetaPackage c Minute).err with
           | some e => some e
           | none =>
             if tk.isSome && bytesDiffer tk (parceMetaPackage c Minute).pkey then
               some (Err.TransportSecurityCheckError tk (parceMetaPackage c Minute).pkey)
             else some (Err.IvalidPeerPublicKey
               "Key received from the peer is not in the allow list"))
      ∧ wrapped c tk al sec (some m) sid = wrapped c tk al sec (some m1) sid := by
  rw [handshakeErr_eq]
  simp only [wrapped, ConnToYggConn, middleware_new]
  generalize parceMetaPackage c Minute = r at hfail ⊢
  cases hre : r.err with
  | some e => exact ⟨rfl, rfl, rfl⟩
  | none =>
    simp only [hre, ne_eq, not_true_eq_false, false_or] at hfail
    by_cases h1 : (tk.isSome && bytesDiffer tk r.pkey) = true
    · simp only [h1, if_true]
      refine ⟨?_, ?_, ?_⟩ <;> trivial
    · have h2 : (al.isSome && !(AllowList.IsAllow (al.getD []) (r.pkey.getD []))) = true :=
        hfail.resolve_left h1
      simp only [h1, h2, if_true, if_false, Bool.false_eq_true]
      refine ⟨?_, ?_, ?_⟩ <;> trivial

/-- Witness of C17 on the stream of the mock transport, with an allow-list that holds one
other key and a strict manager that holds the entry of that peer. -/
theorem C17_failed_check_skips_dedup_witness :
    (ConnToYggConn (some mockConn) none (some [List.replicate 32 1]) false
          (some ⟨true, [⟨mockKey, 0, 9⟩]⟩) 1).map (fun r => (r.2.1, r.2.2))
        = some (some ⟨true, [⟨mockKey, 0, 9⟩]⟩, [])
      ∧ handshakeErr mockConn none (some [List.replicate 32 1]) false
          (some ⟨true, [⟨mockKey, 0, 9⟩]⟩) 1 = some
          (match (parceMetaPackage mockConn Minute).err with
           | some e => some e
           | none =>
             if (none : Option (List Byte)).isSome
                 && bytesDiffer none (parceMetaPackage mockConn Minute).pkey then
               some (Err.TransportSecurityCheckError none (parceMetaPackage mockConn Minute).pkey)
             else some (Err.IvalidPeerPublicKey
               "Key received from the peer is not in the allow list"))
      ∧ wrapped mockConn none (some [List.replicate 32 1]) false
          (some ⟨true, [⟨mockKey, 0, 9⟩]⟩) 1
        = wrapped mockConn none (some [List.replicate 32 1]) false (some ⟨false, []⟩) 1 :=
  C17_failed_check_skips_dedup mockConn none (some [List.replicate 32 1]) false
    ⟨true, [⟨mockKey, 0, 9⟩]⟩ ⟨false, []⟩ 1 (Or.inr (Or.inr (by decide)))

/-! ## Reads from the buffer -/

/-- The pieces of a buffer taken in portions, put together, are the bytes of the buffer
that the portions cover. -/
theorem sliceBy_flatten (ss : List Nat) :
    ∀ buf : List Byte, (sliceBy buf ss).flatten = buf.take ss.sum := by
  induction ss with
  | nil => intro buf; simp [sliceBy]
  | cons s ss ih =>
    intro buf
    simp only [sliceBy, List.flatten_cons, ih, List.sum_cons, List.take_add]

/-- The length of each piece is the smaller of its size and what is left of the buffer. -/
theorem sliceBy_lengths (ss : List Nat) :
    ∀ buf : List Byte, (sliceBy buf ss).map List.length = sliceLengths buf.length ss := by
  induction ss with
  | nil => intro buf; rfl
  | cons s ss ih =>
    intro buf
    simp only [sliceBy, sliceLengths, List.map_cons, ih, List.length_take, List.length_drop]

/-- Successive reads from a wrapper that holds the non-empty buffer `buf`, as long as the
buffer is not used up before the last of them: each read returns its piece of the buffer
with a nil error, the stream is not touched, and the channel holds what is left of the
buffer, or nil when nothing is left. -/
theorem YggConn.Reads_buffer (ss : List Nat) :
    ∀ (y : YggConn) (buf : List Byte), y.extraReadBuffChn = some (some buf) → buf ≠ [] →
      ss.dropLast.sum < buf.length →
      y.Reads ss = some ((sliceBy buf ss).map (fun d => (d, none)),
        { y with
          extraReadBuffChn := some (if buf.length ≤ ss.sum then none else some (buf.drop ss.sum)) })
      := by
  induction ss with
  | nil =>
    intro y buf hb hne _
    have hpos : ¬ buf.length ≤ 0 := by
      have := List.length_pos.mpr hne
      omega
    cases y
    simp only at hb
    subst hb
    simp [YggConn.Reads, sliceBy, hpos]
  | cons s ss ih =>
    intro y buf hb hne hpre
    by_cases hs : s < buf.length
    · have hmin : min s buf.length = s := Nat.min_eq_left (Nat.le_of_lt hs)
      have hread : y.Read s = some (buf.take s, none,
          { y with extraReadBuffChn := some (some (buf.drop s)) }) := by
        have hnot : ¬ buf.length ≤ s := Nat.not_le.mpr hs
        simp [YggConn.Read, hb, hmin, hnot]
      have hne1 : buf.drop s ≠ [] := by
        intro h
        have := congrArg List.length h
        simp only [List.length_drop, List.length_nil] at this
        omega
      have hpre1 : ss.dropLast.sum < (buf.drop s).length := by
        rw [List.length_drop]
        cases ss with
        | nil => simp; omega
        | cons a as =>
          simp only [List.dropLast_cons₂, List.sum_cons] at hpre
          omega
      have h := ih { y with extraReadBuffChn := some (some (buf.drop s)) } (buf.drop s)
        rfl hne1 hpre1
      simp only [YggConn.Reads, hread, h, Option.map_some', sliceBy, List.map_cons,
        List.sum_cons, List.length_drop, List.drop_drop]
      have hiff : (buf.length - s ≤ ss.sum) ↔ (buf.length ≤ s + ss.sum) := by omega
      simp only [hiff, Nat.add_comm s ss.sum]
    · have hge : buf.length ≤ s := Nat.le_of_not_lt hs
      have hnil : ss = [] := by
        cases ss with
        | nil => rfl
        | cons a as =>
          simp only [List.dropLast_cons₂, List.sum_cons] at hpre
          omega
      subst hnil
      have hmin : min s buf.length = buf.length := Nat.min_eq_right hge
      have hread : y.Read s = some (buf.take s, none,
          { y with extraReadBuffChn := some none }) := by
        simp [YggConn.Read, hb, hmin, List.take_of_length_le hge]
      simp [YggConn.Reads, hread, sliceBy, hge]

/-- Once the buffer is nil, `Read` is the read of the stream, with the stored error in place
of the error of the stream. -/
theorem YggConn.Read_nil_buffer (y : YggConn) (n : Nat) (h : y.extraReadBuffChn = some none) :
    (y.Read n).map (fun q => (q.1, q.2.1, q.2.2.innerConn))
      = (y.innerConn.Read n).map
          (fun q => (q.1, (if y.err ≠ none then y.err else q.2.1), q.2.2)) := by
  simp only [YggConn.Read, h]
  cases Conn.Read y.innerConn n with
  | none => rfl
  | some q => rfl

/-- C18: for every wrapper that holds a non-empty buffer `buf` and every sequence of `Read`
calls with destinations of the sizes `ss` such that the buffer is not nil when each of them
starts: every call returns its piece of the buffer, of length the smaller of its size and
what is left, with a nil error; the stream is not touched; the pieces put together are the
bytes of `buf` that the sizes cover, all of `buf` once they cover it; the stored buffer is
nil or non-empty; and once it is nil the next `Read` is the read of the stream. -/
theorem C18_buffered_reads (y : YggConn) (buf : List Byte) (ss : List Nat) (n : Nat)
    (hb : y.extraReadBuffChn = some (some buf)) (hne : buf ≠ [])
    (hpre : ss.dropLast.sum < buf.length) :
    (y.Reads ss).map (fun r => (r.1, r.2.extraReadBuffChn, r.2.innerConn))
        = some ((sliceBy buf ss).map (fun d => (d, none)),
            some (if buf.length ≤ ss.sum then none else some (buf.drop ss.sum)),
            y.innerConn)
      ∧ (sliceBy buf ss).map List.length = sliceLengths buf.length ss
      ∧ (sliceBy buf ss).flatten = buf.take ss.sum
      ∧ (buf.length ≤ ss.sum → (sliceBy buf ss).flatten = buf)
      ∧ (¬ buf.length ≤ ss.sum → buf.drop ss.sum ≠ [])
      ∧ (buf.length ≤ ss.sum →
          (y.Reads ss).bind (fun r => (r.2.Read n).map
            (fun q => (q.1, q.2.1, q.2.2.innerConn)))
          = (y.innerConn.Read n).map
              (fun q => (q.1, (if y.err ≠ none then y.err else q.2.1), q.2.2))) := by
  have hr := YggConn.Reads_buffer ss y buf hb hne hpre
  refine ⟨by rw [hr]; rfl, sliceBy_lengths ss buf, sliceBy_flatten ss buf, ?_, ?_, ?_⟩
  · intro h
    rw [sliceBy_flatten, List.take_of_length_le h]
  · intro h hnil
    have := congrArg List.length hnil
    simp only [List.length_drop, List.length_nil] at this
    omega
  · intro h
    rw [hr, Option.some_bind]
    simp only [h, if_true]
    exact YggConn.Read_nil_buffer _ n rfl

/-- Witness of C18 on a wrapper that holds the six bytes of the header, read in portions of
four, zero and five bytes. -/
theorem C18_buffered_reads_witness :
    (bufferedConn.Reads [4, 0, 5]).map (fun r => (r.1, r.2.extraReadBuffChn, r.2.innerConn))
        = some ((sliceBy mockHeader [4, 0, 5]).map (fun d => (d, none)),
            some (if mockHeader.length ≤ [4, 0, 5].sum then none
              else some (mockHeader.drop [4, 0, 5].sum)),
            bufferedConn.innerConn)
      ∧ (sliceBy mockHeader [4, 0, 5]).map List.length
        = sliceLengths mockHeader.length [4, 0, 5]
      ∧ (sliceBy mockHeader [4, 0, 5]).flatten = mockHeader.take [4, 0, 5].sum
      ∧ (mockHeader.length ≤ [4, 0, 5].sum →
          (sliceBy mockHeader [4, 0, 5]).flatten = mockHeader)
      ∧ (¬ mockHeader.length ≤ [4, 0, 5].sum → mockHeader.drop [4, 0, 5].sum ≠ [])
      ∧ (mockHeader.length ≤ [4, 0, 5].sum →
          (bufferedConn.Reads [4, 0, 5]).bind (fun r => (r.2.Read 3).map
            (fun q => (q.1, q.2.1, q.2.2.innerConn)))
          = (bufferedConn.innerConn.Read 3).map
              (fun q => (q.1, (if bufferedConn.err ≠ none then bufferedConn.err else q.2.1),
                q.2.2))) :=
  C18_buffered_reads bufferedConn mockHeader [4, 0, 5] 3 rfl (by decide) (by decide)

end Ytl
